import Mathlib

/-! Verification of the workflow execution engine of this repository
(`app/services/workflow_engine.py`, `app/services/workflow.py`,
`app/models/workflow.py`).

Modelling conventions:
* Python/JSON values are the inductive `Val`; Python floats are carried as
  exact rationals (`Val.vFloat`), so binary floating-point rounding is
  abstracted; no verified property depends on rounding.
* Wall-clock timestamps (`started_at` / `completed_at`) are dropped from log
  entries: they are real-time data with no behavioural content.
* Configuration entries that the source reads as strings (paths, templates,
  method names) are projected to `String`; a configuration holding a value of
  an unexpected type would raise in Python, and every theorem below
  quantifies only over well-typed configurations.
* External capabilities (chat completion, retrieval search, sub-agent, HTTP,
  the custom-code sandbox) are parameters (`Caps`); an exception raised by a
  capability appears as an `Except.error`.
* Python `str.lower` / `str.upper` and the whitespace stripping of `float()`
  are modelled over ASCII; the strings they are applied to in the engine
  (edge labels, HTTP method names, numeric literals) are ASCII.
-/

/-- Python/JSON values threaded through the engine. -/
inductive Val where
  | vNone : Val
  | vBool (b : Bool) : Val
  | vInt (n : Int) : Val
  | vFloat (q : Rat) : Val
  | vStr (s : String) : Val
  | vList (xs : List Val) : Val
  | vDict (kvs : List (String × Val)) : Val

/-- First-match association-list lookup (a Python dict read; keys stay unique
because all writes go through `ainsert`). -/
def alookup {α : Type} : List (String × α) → String → Option α
  | [], _ => none
  | (k, v) :: rest, key => if k = key then some v else alookup rest key

/-- A Python dict write: replace in place when the key exists (keeping its
insertion position), else append at the end. -/
def ainsert {α : Type} : List (String × α) → String → α → List (String × α)
  | [], key, v => [(key, v)]
  | (k, w) :: rest, key, v =>
    if k = key then (k, v) :: rest else (k, w) :: ainsert rest key v

/-- `d.get(key)` on a `Val` dict (`none` when `d` is not a dict). -/
def dget : Val → String → Option Val
  | .vDict kvs, key => alookup kvs key
  | _, _ => none

/-- `d.get(key, default)`. -/
def dgetD (v : Val) (key : String) (dflt : Val) : Val := (dget v key).getD dflt

/-- Python truthiness of a value. -/
def pyTruthy : Val → Bool
  | .vNone => false
  | .vBool b => b
  | .vInt n => n != 0
  | .vFloat q => q != 0
  | .vStr s => s != ""
  | .vList xs => !xs.isEmpty
  | .vDict kvs => !kvs.isEmpty

/-- Decimal rendering of a Python float held as a rational; kept simple
because no claim stringifies a float (it only keeps `pyRepr` total). -/
def ratStr (q : Rat) : String :=
  if q.den = 1 then toString q.num ++ ".0"
  else toString q.num ++ "/" ++ toString q.den

mutual
/-- Python `repr`, restricted to the value shapes the engine produces.
String quoting is simplified to bare single quotes (escape sequences are not
modelled; no claim stringifies a string containing a quote). -/
def pyRepr : Val → String
  | .vNone => "None"
  | .vBool b => if b then "True" else "False"
  | .vInt n => toString n
  | .vFloat q => ratStr q
  | .vStr s => "'" ++ s ++ "'"
  | .vList xs => "[" ++ pyReprList xs ++ "]"
  | .vDict kvs => "\x7b" ++ pyReprDict kvs ++ "\x7d"

/-- Comma-joined `repr` of list elements. -/
def pyReprList : List Val → String
  | [] => ""
  | [x] => pyRepr x
  | x :: y :: rest => pyRepr x ++ ", " ++ pyReprList (y :: rest)

/-- Comma-joined `repr` of dict entries. -/
def pyReprDict : List (String × Val) → String
  | [] => ""
  | [(k, v)] => "'" ++ k ++ "': " ++ pyRepr v
  | (k, v) :: e :: rest => "'" ++ k ++ "': " ++ pyRepr v ++ ", " ++ pyReprDict (e :: rest)
end

/-- Python `str`. -/
def pyStr : Val → String
  | .vStr s => s
  | v => pyRepr v

/-- ASCII lower-casing of one character. -/
def asciiLowerChar (c : Char) : Char :=
  if 'A' ≤ c ∧ c ≤ 'Z' then Char.ofNat (c.toNat + 32) else c

/-- ASCII upper-casing of one character. -/
def asciiUpperChar (c : Char) : Char :=
  if 'a' ≤ c ∧ c ≤ 'z' then Char.ofNat (c.toNat - 32) else c

/-- `s.lower()` over ASCII. -/
def asciiLower (s : String) : String := ⟨s.data.map asciiLowerChar⟩

/-- `s.upper()` over ASCII. -/
def asciiUpper (s : String) : String := ⟨s.data.map asciiUpperChar⟩

/-- Splitting accumulator for `path.split(".")`. -/
def splitDotsAux : List Char → List Char → List String
  | [], acc => [⟨acc.reverse⟩]
  | c :: rest, acc =>
    if c = '.' then ⟨acc.reverse⟩ :: splitDotsAux rest []
    else splitDotsAux rest (c :: acc)

/-- `path.split(".")` (never empty: the empty string gives `[""]`). -/
def splitDots (s : String) : List String := splitDotsAux s.data []

/-- The recursion of `_get_value_from_path` over the split path. -/
def get_value_from_path_parts : List String → Val → Val
  | [], cur => cur
  | p :: ps, cur =>
    match cur with
    | .vDict kvs =>
      match alookup kvs p with
      | some nxt => get_value_from_path_parts ps nxt
      | none => .vNone
    | _ => .vNone

/-- `_get_value_from_path` (duplicated verbatim in several executors): walk a
dot-separated path through nested dicts, `None` on any miss. -/
def get_value_from_path (path : String) (state : Val) : Val :=
  get_value_from_path_parts (splitDots path) state

/-- The value domain of Python `float(...)` as used by the condition node:
finite values are exact rationals, plus signed infinity and nan. -/
inductive PFloat where
  | fin (q : Rat)
  | inf (neg : Bool)
  | nan

/-- Python `>` on floats (every comparison involving nan is False). -/
def PFloat.gtb : PFloat → PFloat → Bool
  | .nan, _ => false
  | _, .nan => false
  | .fin a, .fin b => b < a
  | .fin _, .inf neg => neg
  | .inf neg, .fin _ => !neg
  | .inf false, .inf neg => neg
  | .inf true, .inf _ => false

/-- ASCII whitespace stripped by Python `float(str)`. -/
def isPyWs (c : Char) : Bool :=
  c = ' ' ∨ c = '\t' ∨ c = '\n' ∨ c = '\r' ∨ c = '\x0b' ∨ c = '\x0c'

/-- Strip leading and trailing whitespace. -/
def trimWs (cs : List Char) : List Char :=
  ((cs.dropWhile isPyWs).reverse.dropWhile isPyWs).reverse

/-- Longest digit run at the front, plus the remainder. -/
def takeDigits : List Char → List Char × List Char
  | [] => ([], [])
  | c :: rest =>
    if c.isDigit then
      let p := takeDigits rest
      (c :: p.1, p.2)
    else ([], c :: rest)

/-- Numeric value of a digit run. -/
def digitsToNat (ds : List Char) : Nat :=
  ds.foldl (fun acc c => acc * 10 + (c.toNat - 48)) 0

/-- Decimal literal of Python `float(str)` after the optional sign:
`digits [. digits] [e|E [sign] digits]`, requiring at least one mantissa
digit and no trailing characters.  (Underscore digit separators, accepted by
CPython between digits, are not modelled; no claim uses them.) -/
def parseDecimal (cs : List Char) : Option Rat :=
  let ip := takeDigits cs
  let fp : List Char × List Char :=
    match ip.2 with
    | '.' :: rest => takeDigits rest
    | _ => ([], ip.2)
  if ip.1 = [] ∧ fp.1 = [] then none
  else
    let mant : Rat := (digitsToNat (ip.1 ++ fp.1) : Rat) / ((10 : Rat) ^ fp.1.length)
    match fp.2 with
    | [] => some mant
    | e :: rest =>
      if e = 'e' ∨ e = 'E' then
        let se : Bool × List Char :=
          match rest with
          | '+' :: t => (false, t)
          | '-' :: t => (true, t)
          | t => (false, t)
        let ed := takeDigits se.2
        if ed.1 = [] ∨ ed.2 ≠ [] then none
        else
          let fac : Rat := (10 : Rat) ^ digitsToNat ed.1
          some (if se.1 then mant / fac else mant * fac)
      else none

/-- Python `float(str)`: strip whitespace, optional sign, then a decimal
literal or an `inf`/`infinity`/`nan` word (case-insensitive). -/
def parsePyFloat (s : String) : Option PFloat :=
  let t := trimWs s.data
  let sb : Bool × List Char :=
    match t with
    | '+' :: r => (false, r)
    | '-' :: r => (true, r)
    | r => (false, r)
  let low := sb.2.map asciiLowerChar
  if low = "inf".data ∨ low = "infinity".data then some (.inf sb.1)
  else if low = "nan".data then some .nan
  else
    match parseDecimal sb.2 with
    | some q => some (.fin (if sb.1 then -q else q))
    | none => none

/-- `float(value)` over the value shapes `Val` can carry; a conversion
failure (ValueError or TypeError in Python) is `none`. -/
def pyFloat? : Val → Option PFloat
  | .vInt n => some (.fin n)
  | .vFloat q => some (.fin q)
  | .vBool b => some (.fin (if b then 1 else 0))
  | .vStr s => parsePyFloat s
  | _ => none

/-- Contiguous-substring test, scanning left to right (Python `in`). -/
def hasSubst (pat : List Char) : List Char → Bool
  | [] => pat.isEmpty
  | c :: rest => pat.isPrefixOf (c :: rest) || hasSubst pat rest

/-- `needle in hay` on Python strings. -/
def pyInStr (needle hay : String) : Bool := hasSubst needle.data hay.data

/-- `ConditionNodeExecutor._evaluate`. -/
def condition_evaluate (value : Val) (operator : String) (compare_value : Val) : Bool :=
  if operator = "equals" then pyStr value == pyStr compare_value
  else if operator = "not_equals" then pyStr value != pyStr compare_value
  else if operator = "contains" then pyInStr (pyStr compare_value) (pyStr value)
  else if operator = "not_contains" then !pyInStr (pyStr compare_value) (pyStr value)
  else if operator = "greater_than" then
    match pyFloat? value, pyFloat? compare_value with
    | some a, some b => PFloat.gtb a b
    | _, _ => false
  else if operator = "less_than" then
    match pyFloat? value, pyFloat? compare_value with
    | some a, some b => PFloat.gtb b a
    | _, _ => false
  else if operator = "is_empty" then !pyTruthy value
  else if operator = "is_not_empty" then pyTruthy value
  else false

/-- One pass of Python `str.replace` over a non-empty pattern: scan left to
right, replacing non-overlapping occurrences, never rescanning the
replacement text. -/
def pyReplaceAux (pat rep : List Char) : List Char → List Char
  | [] => []
  | c :: rest =>
    if pat ≠ [] ∧ pat.isPrefixOf (c :: rest) then
      rep ++ pyReplaceAux pat rep (rest.drop (pat.length - 1))
    else
      c :: pyReplaceAux pat rep rest
termination_by s => s.length
decreasing_by
  · simp only [List.length_cons, List.length_drop]
    omega
  · simp only [List.length_cons]
    omega

/-- Python `str.replace` (an empty pattern interleaves the replacement, as in
CPython). -/
def pyReplace (s pat rep : List Char) : List Char :=
  if pat = [] then rep ++ s.flatMap (fun c => c :: rep)
  else if s = [] then []
  else pyReplaceAux pat rep s

/-- Python `str.replace` on `String`. -/
def pyReplaceS (s pat rep : String) : String := ⟨pyReplace s.data pat.data rep.data⟩

/-- The pattern built by the f-string for an input key. -/
def placeholder (key : String) : String := "\x7b\x7b" ++ key ++ "\x7d\x7d"

/-- The pattern built by the f-string for a node output. -/
def nodes_placeholder (node_id : String) : String := "\x7b\x7bnodes." ++ node_id ++ "\x7d\x7d"

/-- The engine's mutable state dict (`inputs`, `node_outputs`, `loop_state`). -/
structure ExecState where
  inputs : List (String × Val)
  node_outputs : List (String × Val)
  loop_state : List (String × Val)

/-- The state dict as a Python value, for dot-path lookups. -/
def ExecState.val (s : ExecState) : Val :=
  .vDict [("inputs", .vDict s.inputs), ("node_outputs", .vDict s.node_outputs),
          ("loop_state", .vDict s.loop_state)]

/-- One node-output substitution of `LLMNodeExecutor._render_template`:
a dict holding an "output" key is unwrapped, any other value is stringified
raw. -/
def render_node_step : String → String × Val → String
  | acc, (nid, .vDict kvs) =>
    match alookup kvs "output" with
    | some out => pyReplaceS acc (nodes_placeholder nid) (pyStr out)
    | none => pyReplaceS acc (nodes_placeholder nid) (pyStr (.vDict kvs))
  | acc, (nid, v) => pyReplaceS acc (nodes_placeholder nid) (pyStr v)

/-- `LLMNodeExecutor._render_template`: substitute each input key's pattern,
then each node id's pattern. -/
def render_template (template : String) (state : ExecState) : String :=
  let r1 := state.inputs.foldl
    (fun acc kv => pyReplaceS acc (placeholder kv.1) (pyStr kv.2)) template
  state.node_outputs.foldl render_node_step r1

/-- `HTTPNodeExecutor._render_template`: unlike the LLM variant, a node
output that is not a dict containing "output" is left unreplaced. -/
def http_render_template (template : String) (state : ExecState) : String :=
  let r1 := state.inputs.foldl
    (fun acc kv => pyReplaceS acc (placeholder kv.1) (pyStr kv.2)) template
  state.node_outputs.foldl
    (fun acc kv =>
      match kv.2 with
      | .vDict kvs =>
        match alookup kvs "output" with
        | some out => pyReplaceS acc (nodes_placeholder kv.1) (pyStr out)
        | none => acc
      | _ => acc) r1

/-- One chat message. -/
structure ChatMessage where
  role : String
  content : Val

/-- The chat-completion capability's reply (`response.usage` is a dict or
None). -/
structure LLMResponse where
  content : Val
  usage : Val

/-- One retrieved chunk (`score` is absent when the chunk object has no
score attribute). -/
structure RagChunk where
  content : String
  document_id : String
  chunk_index : Val
  score : Option Val

/-- The HTTP request issued by the http node (`json` is the `json=` argument
for POST/PUT, `none` otherwise). -/
structure HttpRequest where
  method : String
  url : String
  headers : Val
  json : Option String

/-- The HTTP capability's reply. -/
structure HttpResponse where
  text : String
  status_code : Int
  headers : List (String × Val)

/-- The external capabilities the engine calls; an `Except.error` models an
exception raised by the capability. -/
structure Caps where
  chat_completion : List ChatMessage → Val → Val → Option Val → Except String LLMResponse
  rag_search : Val → Val → Option Val → Except String (List RagChunk)
  agent_run : Val → List ChatMessage → Except String Val
  http_call : HttpRequest → Except String HttpResponse
  exec_code : String → List (String × Val) → List (String × Val) → Except String Val

/-- A node executor: capabilities, the node id, the node's config dict and
the current state, producing a result dict or a raised exception. -/
def ExecFn : Type := Caps → String → Val → ExecState → Except String Val

/-- Read a config entry the source treats as a string (see the header note
on ill-typed configurations). -/
def cfgStr (config : Val) (key dflt : String) : String :=
  match dget config key with
  | some (.vStr s) => s
  | some _ => dflt
  | none => dflt

/-- `StartNodeExecutor.execute`: pass the run inputs through. -/
def start_execute : ExecFn := fun _ _ _ state =>
  .ok (.vDict [("output", .vDict state.inputs)])

/-- The fallback of `EndNodeExecutor.execute`: the most recent node output,
else None. -/
def end_fallback (state : ExecState) : Except String Val :=
  match state.node_outputs.getLast? with
  | some kv => .ok (.vDict [("output", kv.2)])
  | none => .ok (.vDict [("output", .vNone)])

/-- `EndNodeExecutor.execute`: resolve `output_from` when it is a truthy key
present in `node_outputs`, else fall back to the last output. -/
def end_execute : ExecFn := fun _ _ config state =>
  match dget config "output_from" with
  | some (.vStr s) =>
    if s ≠ "" then
      match alookup state.node_outputs s with
      | some out => .ok (.vDict [("output", out)])
      | none => end_fallback state
    else end_fallback state
  | some v =>
    -- a truthy non-string `output_from` is never a key of node_outputs
    if pyTruthy v then end_fallback state else end_fallback state
  | none => end_fallback state

/-- `LLMNodeExecutor.execute`. -/
def llm_execute : ExecFn := fun caps _ config state =>
  let prompt := render_template (cfgStr config "prompt" "") state
  let model := dgetD config "model" (.vStr "gemini-2.0-flash")
  let temperature := dgetD config "temperature" (.vFloat (7 / 10))
  let max_tokens : Option Val :=
    match dget config "max_tokens" with
    | some .vNone => none
    | o => o
  let sys : List ChatMessage :=
    match dget config "system_prompt" with
    | some sp => if pyTruthy sp then [ChatMessage.mk "system" sp] else []
    | none => []
  match caps.chat_completion (sys ++ [ChatMessage.mk "user" (.vStr prompt)]) model temperature max_tokens with
  | .error e => .error e
  | .ok response =>
    let tokens := if pyTruthy response.usage then dgetD response.usage "total_tokens" (.vInt 0) else Val.vInt 0
    .ok (.vDict [("output", response.content), ("tokens_used", tokens)])

/-- `RAGNodeExecutor.execute`. -/
def rag_execute : ExecFn := fun caps _ config state =>
  let query_from := cfgStr config "query_from" "inputs.query"
  let q0 := get_value_from_path query_from state.val
  let query := if pyTruthy q0 then q0 else dgetD config "query" (.vStr "")
  let top_k := dgetD config "top_k" (.vInt 5)
  let document_ids := dgetD config "document_ids" (.vList [])
  let doc_arg := if pyTruthy document_ids then some document_ids else none
  match caps.rag_search query top_k doc_arg with
  | .error e => .error e
  | .ok results =>
    let context := String.intercalate "\n\n" (results.map (fun c => c.content))
    let sources := results.map fun chunk =>
      Val.vDict [("document_id", .vStr chunk.document_id),
                 ("chunk_index", chunk.chunk_index),
                 ("score", chunk.score.getD .vNone)]
    .ok (.vDict [("output", .vStr context), ("sources", .vList sources),
                 ("chunk_count", .vInt results.length)])

/-- `AgentNodeExecutor.execute`. -/
def agent_execute : ExecFn := fun caps _ config state =>
  let agent_slug := dgetD config "agent_slug" (.vStr "general")
  let input_from := cfgStr config "input_from" "inputs.query"
  let u0 := get_value_from_path input_from state.val
  let user_input := if pyTruthy u0 then u0 else dgetD config "input" (.vStr "")
  let context : Option Val :=
    match dget config "context_from" with
    | some cf =>
      if pyTruthy cf then some (get_value_from_path (cfgStr config "context_from" "") state.val)
      else none
    | none => none
  let sys : List ChatMessage :=
    match context with
    | some ctx =>
      if pyTruthy ctx then [ChatMessage.mk "system" (.vStr ("Context:\n" ++ pyStr ctx))]
      else []
    | none => []
  match caps.agent_run agent_slug (sys ++ [ChatMessage.mk "user" user_input]) with
  | .error e => .error e
  | .ok result =>
    .ok (.vDict [("output", dgetD result "response" (.vStr "")),
                 ("tool_calls", dgetD result "tool_calls" (.vList [])),
                 ("tokens_used", dgetD result "tokens_used" (.vInt 0))])

/-- `ConditionNodeExecutor.execute`. -/
def condition_execute : ExecFn := fun _ _ config state =>
  let var_path := cfgStr config "variable" ""
  let value := get_value_from_path var_path state.val
  -- a non-string operator matches none of the source's equality tests
  let operator :=
    match dget config "operator" with
    | some (.vStr s) => s
    | none => "equals"
    | some _ => "\x00operator"
  let compare_value := dgetD config "value" (.vStr "")
  let result := condition_evaluate value operator compare_value
  .ok (.vDict [("output", .vBool result),
               ("branch", .vStr (if result then "true" else "false"))])

/-- Python list indexing (negative indices wrap; out of range raises). -/
def pyIndex (xs : List Val) (i : Int) : Except String Val :=
  let j := if i < 0 then i + xs.length else i
  if h : 0 ≤ j ∧ j < (xs.length : Int) then
    .ok (xs.get ⟨j.toNat, by omega⟩)
  else .error "list index out of range"

/-- `LoopNodeExecutor.execute`: read the array, read this node's iteration
index from `loop_state` (never written anywhere in the engine), and return
either the current element or the accumulated results. -/
def loop_execute : ExecFn := fun _ node_id config state =>
  let array_from := cfgStr config "array_from" ""
  match get_value_from_path array_from state.val with
  | .vList xs =>
    -- `loop_state.get(f"{node_id}_index", 0)`; a non-int entry is unreachable
    -- because nothing in the engine ever writes this key
    let current_index : Int :=
      match alookup state.loop_state (node_id ++ "_index") with
      | some (.vInt n) => n
      | _ => 0
    if current_index ≥ (xs.length : Int) then
      .ok (.vDict [("output", (alookup state.loop_state (node_id ++ "_results")).getD (.vList [])),
                   ("done", .vBool true), ("count", .vInt xs.length)])
    else
      match pyIndex xs current_index with
      | .error e => .error e
      | .ok x =>
        .ok (.vDict [("output", x), ("index", .vInt current_index),
                     ("done", .vBool false), ("count", .vInt xs.length)])
  | _ => .ok (.vDict [("output", .vList []), ("items", .vList []), ("count", .vInt 0)])

/-- Successful HTTP result dict. -/
def http_ok (r : HttpResponse) : Val :=
  .vDict [("output", .vStr r.text), ("status_code", .vInt r.status_code),
          ("headers", .vDict r.headers)]

/-- The dict produced by the http node's own `except` clause. -/
def http_err (e : String) : Val :=
  .vDict [("output", .vNone), ("error", .vStr e), ("status_code", .vInt 0)]

/-- `HTTPNodeExecutor.execute`: every exception inside the request block —
including the unsupported-method ValueError — is caught and surfaced as a
result dict, so this executor never raises across the walker boundary. -/
def http_execute : ExecFn := fun caps _ config state =>
  let method := asciiUpper (cfgStr config "method" "GET")
  let url := http_render_template (cfgStr config "url" "") state
  let headers := dgetD config "headers" (.vDict [])
  let body : Option String :=
    match dget config "body" with
    | some b => if pyTruthy b then some (http_render_template (pyStr b) state) else none
    | none => none
  let json_arg : Option String :=
    match body with
    | some s => if s = "" then none else some s
    | none => none
  let call (j : Option String) : Except String Val :=
    match caps.http_call ⟨method, url, headers, j⟩ with
    | .ok r => .ok (http_ok r)
    | .error e => .ok (http_err e)
  if method = "GET" then call none
  else if method = "POST" then call json_arg
  else if method = "PUT" then call json_arg
  else if method = "DELETE" then call none
  else .ok (http_err ("Unsupported HTTP method: " ++ method))

/-- `CustomFunctionNodeExecutor.execute` (the `exec` sandbox is the external
capability `exec_code`, yielding the final `result` binding or the raised
error, which this executor catches). -/
def custom_function_execute : ExecFn := fun caps _ config state =>
  match caps.exec_code (cfgStr config "code" "") state.inputs state.node_outputs with
  | .ok r => .ok (.vDict [("output", r)])
  | .error e => .ok (.vDict [("output", .vNone), ("error", .vStr e)])

/-- The `NODE_EXECUTORS` registry (`NODE_EXECUTORS.get(node_type)`). -/
def lookupExecutor (node_type : String) : Option ExecFn :=
  if node_type = "start" then some start_execute
  else if node_type = "end" then some end_execute
  else if node_type = "llm" then some llm_execute
  else if node_type = "rag" then some rag_execute
  else if node_type = "agent" then some agent_execute
  else if node_type = "condition" then some condition_execute
  else if node_type = "loop" then some loop_execute
  else if node_type = "http" then some http_execute
  else if node_type = "custom_function" then some custom_function_execute
  else none

/-- The `NodeType` enum values of `app/models/workflow.py`. -/
def nodeTypeValues : List String :=
  ["start", "end", "llm", "agent", "rag", "tool", "condition", "loop",
   "custom_function", "http"]

/-- A workflow node as the walker reads it: `node["id"]`,
`node["data"]["type"]`, `node["data"]["config"]`. -/
structure Node where
  id : String
  type : String
  config : Val

/-- A workflow edge: `source`, `target`, and the branching metadata
(`label`, `sourceHandle`, both defaulting to the empty string). -/
structure Edge where
  source : String
  target : String
  label : String
  sourceHandle : String

/-- A workflow definition (the fields the engine reads). -/
structure WorkflowDef where
  nodes : List Node
  edges : List Edge

/-- One NodeLog entry (wall-clock timestamps abstracted away). -/
structure LogEntry where
  node_id : String
  node_type : String
  status : String
  output : Option Val
  error : Option String
  tokens_used : Option Int

/-- The engine object's mutable fields: `self.state`, `self.logs`,
`self.total_tokens`. -/
structure EngineSt where
  state : ExecState
  logs : List LogEntry
  total_tokens : Int

/-- One call of `_execute_node`, as recorded in the instrumentation trace. -/
structure TraceEntry where
  node_id : String
  node_type : String
  result : Val

/-- `result.get("tokens_used", 0)` as accumulated into `total_tokens`; the
source's executors only ever report ints (or nothing), so other shapes fall
to the default. -/
def getTokens (result : Val) : Int :=
  match dget result "tokens_used" with
  | some (.vInt n) => n
  | some (.vBool b) => if b then 1 else 0
  | _ => 0

/-- The dict returned when an executor raises. -/
def errorResult (msg : String) : Val := .vDict [("output", .vNone), ("error", .vStr msg)]

/-- The dict returned for a node kind with no registered executor. -/
def unknownTypeResult (t : String) : Val := errorResult ("Unknown node type: " ++ t)

/-- `WorkflowEngine._execute_node`: dispatch on the registry (no log entry
when the kind is unknown), run the executor inside try/except, append a
completed or failed log entry, and return the result dict. -/
def execute_node (caps : Caps) (node : Node) (st : EngineSt) : Val × EngineSt :=
  match lookupExecutor node.type with
  | none => (unknownTypeResult node.type, st)
  | some ex =>
    match ex caps node.id node.config st.state with
    | .ok result =>
      let tokens := getTokens result
      (result,
       { st with total_tokens := st.total_tokens + tokens,
                 logs := st.logs ++ [⟨node.id, node.type, "completed", some result, none, some tokens⟩] })
    | .error e =>
      (errorResult e,
       { st with logs := st.logs ++ [⟨node.id, node.type, "failed", none, some e, none⟩] })

/-- `adjacency.setdefault(source, []).append(target)`. -/
def adjAppend : List (String × List String) → String → String → List (String × List String)
  | [], src, tgt => [(src, [tgt])]
  | (s, ts) :: rest, src, tgt =>
    if s = src then (s, ts ++ [tgt]) :: rest
    else (s, ts) :: adjAppend rest src tgt

/-- `WorkflowEngine._build_adjacency`. -/
def build_adjacency (edges : List Edge) : List (String × List String) :=
  edges.foldl (fun adj e => adjAppend adj e.source e.target) []

/-- `adjacency.get(current_id, [])`. -/
def adjGet (adj : List (String × List String)) (src : String) : List String :=
  (alookup adj src).getD []

/-- `WorkflowEngine._get_next_node`: first adjacency target, located in the
node list (None when missing). -/
def get_next_node (current_id : String) (adj : List (String × List String))
    (nodes : List Node) : Option Node :=
  match adjGet adj current_id with
  | [] => none
  | target_id :: _ => nodes.find? (fun n => n.id == target_id)

/-- `result.get("branch", "true")` as compared against the edge labels; a
non-string branch value compares unequal to both "true" and "false". -/
def branchOf (result : Val) : String :=
  match dget result "branch" with
  | some (.vStr s) => s
  | none => "true"
  | some _ => "\x00branch"

/-- `WorkflowEngine._get_next_node_for_branch`: scan the edges leaving the
condition node; an unlabeled edge is the implicit "true" edge; when the
matched edge's target is not in the node list the scan continues. -/
def get_next_node_for_branch (source_id : String) (branch : String)
    (edges : List Edge) (nodes : List Node) : Option Node :=
  match edges with
  | [] => none
  | e :: rest =>
    if e.source = source_id then
      let edge_label := asciiLower e.label
      let source_handle := asciiLower e.sourceHandle
      if branch = "true" ∧ (edge_label = "true" ∨ source_handle = "true" ∨ edge_label = "") then
        match nodes.find? (fun n => n.id == e.target) with
        | some n => some n
        | none => get_next_node_for_branch source_id branch rest nodes
      else if branch = "false" ∧ (edge_label = "false" ∨ source_handle = "false") then
        match nodes.find? (fun n => n.id == e.target) with
        | some n => some n
        | none => get_next_node_for_branch source_id branch rest nodes
      else get_next_node_for_branch source_id branch rest nodes
    else get_next_node_for_branch source_id branch rest nodes

/-- Next-node selection after a non-end node (the if/elif at the bottom of
the traversal loop of `WorkflowEngine.execute`). -/
def select_next (node : Node) (result : Val) (edges : List Edge)
    (adj : List (String × List String)) (nodes : List Node) : Option Node :=
  if node.type = "condition" then
    get_next_node_for_branch node.id (branchOf result) edges nodes
  else get_next_node node.id adj nodes

/-- The traversal loop of `WorkflowEngine.execute`.  `fuel` bounds the number
of iterations (the source loop can run unboundedly on a graph that revisits a
loop node forever); `none` means the bound was exhausted.  Alongside the
final engine state the model returns the trace of node executions, one entry
per call of `_execute_node`. -/
def walk (caps : Caps) (nodes : List Node) (edges : List Edge)
    (adj : List (String × List String)) :
    Nat → Finset String → Node → EngineSt → Option (EngineSt × List TraceEntry)
  | 0, _, _, _ => none
  | fuel + 1, visited, current, st =>
    if current.id ∈ visited ∧ current.type ≠ "loop" then some (st, [])
    else
      let visited' := insert current.id visited
      let r := execute_node caps current st
      let st2 : EngineSt :=
        { r.2 with state := { r.2.state with
            node_outputs := ainsert r.2.state.node_outputs current.id r.1 } }
      let entry : TraceEntry := ⟨current.id, current.type, r.1⟩
      if current.type = "end" then some (st2, [entry])
      else
        match select_next current r.1 edges adj nodes with
        | none => some (st2, [entry])
        | some nxt =>
          (walk caps nodes edges adj fuel visited' nxt st2).map
            (fun p => (p.1, entry :: p.2))

/-- The engine state at run start (`WorkflowEngine.__init__` plus
`self.state["inputs"] = inputs`). -/
def initialState (inputs : List (String × Val)) : EngineSt :=
  ⟨⟨inputs, [], []⟩, [], 0⟩

/-- The dict returned by `WorkflowEngine.execute` (`outputs` and
`node_states` are the same map). -/
structure WalkResult where
  outputs : List (String × Val)
  node_states : List (String × Val)
  logs : List LogEntry
  total_tokens : Int

/-- `WorkflowEngine._find_start_node`: the first node of kind "start", else
the first node, else None. -/
def find_start_node (nodes : List Node) : Option Node :=
  match nodes.find? (fun n => n.type == "start") with
  | some n => some n
  | none => nodes.head?

/-- `WorkflowEngine.execute`, instrumented with the execution trace.
`none` is fuel exhaustion, `some (.error msg)` a raised exception, and
`some (.ok ...)` a normal return. -/
def engine_execute_traced (caps : Caps) (wf : WorkflowDef)
    (inputs : List (String × Val)) (fuel : Nat) :
    Option (Except String (WalkResult × List TraceEntry)) :=
  if wf.nodes.isEmpty then some (.ok (⟨[], [], [], 0⟩, []))
  else
    match find_start_node wf.nodes with
    | none => some (.error "No start node found in workflow")
    | some start =>
      match walk caps wf.nodes wf.edges (build_adjacency wf.edges) fuel ∅ start
          (initialState inputs) with
      | none => none
      | some (st, tr) =>
        some (.ok (⟨st.state.node_outputs, st.state.node_outputs, st.logs, st.total_tokens⟩, tr))

/-- `WorkflowEngine.execute`. -/
def engine_execute (caps : Caps) (wf : WorkflowDef)
    (inputs : List (String × Val)) (fuel : Nat) : Option (Except String WalkResult) :=
  (engine_execute_traced caps wf inputs fuel).map (Except.map Prod.fst)

/-- The terminal status written by `execute_workflow`'s try/except
(`app/services/workflow.py`): "completed" when the engine returns,
"failed" with the error message when it raises. -/
def execute_workflow_status (caps : Caps) (wf : WorkflowDef)
    (inputs : List (String × Val)) (fuel : Nat) : Option (String × Option String) :=
  match engine_execute caps wf inputs fuel with
  | none => none
  | some (.ok _) => some ("completed", none)
  | some (.error e) => some ("failed", some e)

/-- One event yielded by the streaming walker. -/
inductive StreamEvent where
  | nodeDone (node_id : String) (node_type : String) (output : Val)
  | finished
  | failed (error : String)

/-- Modelled from the spec: `WorkflowEngineStream.execute_stream` is imported
by `execute_workflow_stream` (`app/services/workflow.py`) but its definition
is not part of the source tree.  Per spec section 4.4 the streaming walker
runs the same traversal as the batch walker, emitting one
`(node_id, node_type, output, done false)` event per completed node; the
per-token llm chunk events come from the external provider stream and
accumulate to the same final text, so they are not modelled individually. -/
def walk_stream (caps : Caps) (nodes : List Node) (edges : List Edge)
    (adj : List (String × List String)) :
    Nat → Finset String → Node → EngineSt → Option (EngineSt × List StreamEvent)
  | 0, _, _, _ => none
  | fuel + 1, visited, current, st =>
    if current.id ∈ visited ∧ current.type ≠ "loop" then some (st, [])
    else
      let visited' := insert current.id visited
      let r := execute_node caps current st
      let st2 : EngineSt :=
        { r.2 with state := { r.2.state with
            node_outputs := ainsert r.2.state.node_outputs current.id r.1 } }
      let ev : StreamEvent := .nodeDone current.id current.type r.1
      if current.type = "end" then some (st2, [ev])
      else
        match select_next current r.1 edges adj nodes with
        | none => some (st2, [ev])
        | some nxt =>
          (walk_stream caps nodes edges adj fuel visited' nxt st2).map
            (fun p => (p.1, ev :: p.2))

/-- Modelled from the spec: the streaming entry point — same start
resolution and traversal as the batch walker, with a final `done true`
event appended after normal termination (spec section 4.4). -/
def engine_execute_stream (caps : Caps) (wf : WorkflowDef)
    (inputs : List (String × Val)) (fuel : Nat) :
    Option (Except String (EngineSt × List StreamEvent)) :=
  if wf.nodes.isEmpty then some (.ok (initialState inputs, [.finished]))
  else
    match find_start_node wf.nodes with
    | none => some (.error "No start node found in workflow")
    | some start =>
      match walk_stream caps wf.nodes wf.edges (build_adjacency wf.edges) fuel ∅ start
          (initialState inputs) with
      | none => none
      | some (st, evs) => some (.ok (st, evs ++ [.finished]))

/-! Shared concrete fixtures used by witnesses and counterexamples. -/

/-- Stub capabilities in which every external call raises. -/
def stubCaps : Caps :=
  ⟨fun _ _ _ _ => .error "chat unavailable",
   fun _ _ _ => .error "search unavailable",
   fun _ _ => .error "agent unavailable",
   fun _ => .error "http unavailable",
   fun _ _ _ => .error "exec unavailable"⟩

/-- Capabilities in which every HTTP call raises with message `e` (the other
capabilities are irrelevant to the graphs that use this). -/
def httpFailCaps (e : String) : Caps :=
  ⟨fun _ _ _ _ => .error e, fun _ _ _ => .error e, fun _ _ => .error e,
   fun _ => .error e, fun _ _ _ => .error e⟩

/-- The graph start → http → end. -/
def wfHttp : WorkflowDef :=
  ⟨[⟨"s1", "start", .vDict []⟩, ⟨"h1", "http", .vDict []⟩, ⟨"e1", "end", .vDict []⟩],
   [⟨"s1", "h1", "", ""⟩, ⟨"h1", "e1", "", ""⟩]⟩

/-- The graph start → tool → end ("tool" has no registered executor). -/
def wfTool : WorkflowDef :=
  ⟨[⟨"s1", "start", .vDict []⟩, ⟨"t1", "tool", .vDict []⟩, ⟨"e1", "end", .vDict []⟩],
   [⟨"s1", "t1", "", ""⟩, ⟨"t1", "e1", "", ""⟩]⟩

/-- The graph start → end. -/
def wfStartEnd : WorkflowDef :=
  ⟨[⟨"s1", "start", .vDict []⟩, ⟨"e1", "end", .vDict []⟩], [⟨"s1", "e1", "", ""⟩]⟩

/-- A loop node reading `inputs.items`. -/
def loopDemoCfg : Val := .vDict [("array_from", .vStr "inputs.items")]

/-- A state holding the three-element array of the loop claim. -/
def loopDemoState : ExecState :=
  ⟨[("items", .vList [.vStr "a", .vStr "b", .vStr "c"])], [], []⟩

/-- The graph start → loop with the loop's outgoing edge pointing back to
itself (the revisit path the walker sanctions for loop nodes). -/
def wfLoopSelf : WorkflowDef :=
  ⟨[⟨"s1", "start", .vDict []⟩, ⟨"l1", "loop", loopDemoCfg⟩],
   [⟨"s1", "l1", "", ""⟩, ⟨"l1", "l1", "", ""⟩]⟩

/-! Claim C6. -/

/-- C6: for every pair of operand values, the condition evaluation of
`greater_than` and `less_than` returns False whenever either operand fails
to convert with `float()` — the ValueError/TypeError is absorbed by the
executor's own except clause, never propagated (the model is total by
construction). -/
theorem condition_numeric_parse_failure_is_false
    (value compare_value : Val)
    (h : pyFloat? value = none ∨ pyFloat? compare_value = none) :
    condition_evaluate value "greater_than" compare_value = false ∧
    condition_evaluate value "less_than" compare_value = false := by
  unfold condition_evaluate
  rcases h with h | h <;>
    rcases hv : pyFloat? value with _ | a <;>
    rcases hc : pyFloat? compare_value with _ | b <;>
    simp_all

/-- Witness for C6: the spec's own example, `greater_than` comparing "abc"
against "5". -/
theorem condition_numeric_parse_failure_witness :
    (pyFloat? (.vStr "abc") = none ∨ pyFloat? (.vStr "5") = none) ∧
    (condition_evaluate (.vStr "abc") "greater_than" (.vStr "5") = false ∧
     condition_evaluate (.vStr "abc") "less_than" (.vStr "5") = false) :=
  ⟨Or.inl rfl,
   condition_numeric_parse_failure_is_false (.vStr "abc") (.vStr "5") (Or.inl rfl)⟩

/-! Claim C3. -/

/-- The loop-node walk of `wfLoopSelf` never terminates: the iteration index
read from `loop_state` is never written by any code in the engine, so every
revisit of the loop node executes at index 0 and the traversal loop never
breaks. -/
theorem walk_loop_self_none (fuel : Nat) (visited : Finset String) (st : EngineSt) :
    walk stubCaps wfLoopSelf.nodes wfLoopSelf.edges (build_adjacency wfLoopSelf.edges)
      fuel visited ⟨"l1", "loop", loopDemoCfg⟩ st = none := by
  induction fuel generalizing visited st with
  | zero => rfl
  | succ f ih =>
    rw [walk]
    simp only [ne_eq, not_true_eq_false, and_false, if_false]
    rw [show select_next ⟨"l1", "loop", loopDemoCfg⟩
        (execute_node stubCaps ⟨"l1", "loop", loopDemoCfg⟩ st).1 wfLoopSelf.edges
        (build_adjacency wfLoopSelf.edges) wfLoopSelf.nodes =
        some ⟨"l1", "loop", loopDemoCfg⟩ from rfl]
    simp [ih]

/-- C3 (code bug): the loop executor reads the iteration index
`f"{node_id}_index"` from `loop_state`, but neither the executor nor the
walker ever writes it, so with the same `loop_state` every invocation over
the array ["a","b","c"] returns element "a" with done False — never "b",
"c", or done True; a non-list value yields a result with count 0 that
carries no "done" key at all; and a run that revisits the loop node through
its sanctioned self-edge never terminates for any iteration bound. -/
theorem loop_node_iteration_counter_never_advances :
    loop_execute stubCaps "loop-1" loopDemoCfg loopDemoState =
      .ok (.vDict [("output", .vStr "a"), ("index", .vInt 0),
                   ("done", .vBool false), ("count", .vInt 3)]) ∧
    loop_execute stubCaps "loop-1" loopDemoCfg ⟨[("items", .vStr "xyz")], [], []⟩ =
      .ok (.vDict [("output", .vList []), ("items", .vList []), ("count", .vInt 0)]) ∧
    dget (.vDict [("output", .vList []), ("items", .vList []), ("count", .vInt 0)]) "done" = none ∧
    (∀ fuel : Nat,
      engine_execute_traced stubCaps wfLoopSelf [("items", .vList [.vStr "a", .vStr "b", .vStr "c"])] fuel = none) := by
  refine ⟨rfl, rfl, rfl, fun fuel => ?_⟩
  cases fuel with
  | zero => rfl
  | succ f =>
    have haux : walk stubCaps wfLoopSelf.nodes wfLoopSelf.edges
        (build_adjacency wfLoopSelf.edges) (f + 1) ∅ ⟨"s1", "start", .vDict []⟩
        (initialState [("items", .vList [.vStr "a", .vStr "b", .vStr "c"])]) = none := by
      rw [walk]
      simp only [show (("s1" : String) ∈ (∅ : Finset String) ∧ ("start" : String) ≠ "loop") =
        False from by simp, if_false]
      rw [if_neg (by decide : ¬("start" : String) = "end")]
      rw [show select_next ⟨"s1", "start", .vDict []⟩
          (execute_node stubCaps ⟨"s1", "start", .vDict []⟩
            (initialState [("items", .vList [.vStr "a", .vStr "b", .vStr "c"])])).1
          wfLoopSelf.edges (build_adjacency wfLoopSelf.edges) wfLoopSelf.nodes =
          some ⟨"l1", "loop", loopDemoCfg⟩ from rfl]
      simp [walk_loop_self_none]
    rw [show engine_execute_traced stubCaps wfLoopSelf
        [("items", .vList [.vStr "a", .vStr "b", .vStr "c"])] (f + 1) =
        (match walk stubCaps wfLoopSelf.nodes wfLoopSelf.edges
            (build_adjacency wfLoopSelf.edges) (f + 1) ∅ ⟨"s1", "start", .vDict []⟩
            (initialState [("items", .vList [.vStr "a", .vStr "b", .vStr "c"])]) with
         | none => none
         | some (st, tr) =>
           some (.ok (⟨st.state.node_outputs, st.state.node_outputs, st.logs,
             st.total_tokens⟩, tr))) from rfl]
    rw [haux]

/-! Claim C10. -/

/-- `self.state["node_outputs"][node_id] = result` as performed by the
traversal loop right after `_execute_node` returns. -/
def record_output (node : Node) (result : Val) (st : EngineSt) : EngineSt :=
  { st with state := { st.state with
      node_outputs := ainsert st.state.node_outputs node.id result } }

/-- C10: a node whose kind has no registered executor — such as "tool",
which the NodeType model accepts but `NODE_EXECUTORS` omits — produces
`{"output": None, "error": "Unknown node type: <kind>"}` without raising and
without appending any log entry, and the walker records that result and
continues to the node's first successor. -/
theorem unknown_node_type_skips_log_and_continues :
    ("tool" ∈ nodeTypeValues ∧ lookupExecutor "tool" = none) ∧
    (∀ (caps : Caps) (node : Node) (st : EngineSt),
      lookupExecutor node.type = none →
      execute_node caps node st = (unknownTypeResult node.type, st)) ∧
    (∀ (caps : Caps) (nodes : List Node) (edges : List Edge)
      (adj : List (String × List String)) (fuel : Nat) (visited : Finset String)
      (node : Node) (st : EngineSt),
      lookupExecutor node.type = none →
      node.id ∉ visited →
      walk caps nodes edges adj (fuel + 1) visited node st =
        (match get_next_node node.id adj nodes with
         | none => some (record_output node (unknownTypeResult node.type) st,
                         [⟨node.id, node.type, unknownTypeResult node.type⟩])
         | some nxt =>
           (walk caps nodes edges adj fuel (insert node.id visited) nxt
             (record_output node (unknownTypeResult node.type) st)).map
             (fun p => (p.1, ⟨node.id, node.type, unknownTypeResult node.type⟩ :: p.2)))) := by
  have hexec : ∀ (caps : Caps) (node : Node) (st : EngineSt),
      lookupExecutor node.type = none →
      execute_node caps node st = (unknownTypeResult node.type, st) := by
    intro caps node st h
    unfold execute_node
    rw [h]
  refine ⟨⟨by decide, rfl⟩, hexec, ?_⟩
  intro caps nodes edges adj fuel visited node st hreg hv
  have hend : node.type ≠ "end" := by
    intro h
    rw [h] at hreg
    exact Option.noConfusion (hreg.symm.trans (rfl : lookupExecutor "end" = some end_execute))
  have hcond : node.type ≠ "condition" := by
    intro h
    rw [h] at hreg
    exact Option.noConfusion
      (hreg.symm.trans (rfl : lookupExecutor "condition" = some condition_execute))
  rw [walk]
  rw [if_neg (fun hc => hv hc.1)]
  rw [hexec caps node st hreg]
  rw [if_neg hend]
  rw [show select_next node (unknownTypeResult node.type) edges adj nodes =
      get_next_node node.id adj nodes from by unfold select_next; rw [if_neg hcond]]
  rfl

/-- Witness for C10: the "tool" node of the graph start → tool → end,
executed from the walker with an empty visited set. -/
theorem unknown_node_type_witness :
    (lookupExecutor "tool" = none ∧ ("t1" : String) ∉ (∅ : Finset String)) ∧
    execute_node stubCaps ⟨"t1", "tool", .vDict []⟩ (initialState []) =
      (unknownTypeResult "tool", initialState []) ∧
    walk stubCaps wfTool.nodes wfTool.edges (build_adjacency wfTool.edges) (2 + 1) ∅
        ⟨"t1", "tool", .vDict []⟩ (initialState []) =
      (match get_next_node "t1" (build_adjacency wfTool.edges) wfTool.nodes with
       | none => some (record_output ⟨"t1", "tool", .vDict []⟩ (unknownTypeResult "tool")
                         (initialState []),
                       [⟨"t1", "tool", unknownTypeResult "tool"⟩])
       | some nxt =>
         (walk stubCaps wfTool.nodes wfTool.edges (build_adjacency wfTool.edges) 2
             (insert "t1" ∅) nxt
             (record_output ⟨"t1", "tool", .vDict []⟩ (unknownTypeResult "tool")
               (initialState []))).map
           (fun p => (p.1, ⟨"t1", "tool", unknownTypeResult "tool"⟩ :: p.2))) :=
  ⟨⟨rfl, by simp⟩,
   unknown_node_type_skips_log_and_continues.2.1 stubCaps ⟨"t1", "tool", .vDict []⟩
     (initialState []) rfl,
   unknown_node_type_skips_log_and_continues.2.2 stubCaps wfTool.nodes wfTool.edges
     (build_adjacency wfTool.edges) 2 ∅ ⟨"t1", "tool", .vDict []⟩ (initialState [])
     rfl (by simp)⟩

/-! Claim C1. -/

/-- The graph start → llm → end. -/
def wfLLM : WorkflowDef :=
  ⟨[⟨"s1", "start", .vDict []⟩, ⟨"l1", "llm", .vDict []⟩, ⟨"e1", "end", .vDict []⟩],
   [⟨"s1", "l1", "", ""⟩, ⟨"l1", "e1", "", ""⟩]⟩

/-- C1: when a registered executor raises, `_execute_node` catches the
exception, appends exactly one log entry with status "failed" and the error
text, and returns `{"output": None, "error": <text>}`; the traversal loop
then records that dict in `node_outputs` and moves on to the normally
selected next node — the exception itself never escapes the loop body. -/
theorem executor_exception_caught_and_run_continues
    (caps : Caps) (nodes : List Node) (edges : List Edge)
    (adj : List (String × List String)) (fuel : Nat) (visited : Finset String)
    (node : Node) (st : EngineSt) (ex : ExecFn) (msg : String)
    (hreg : lookupExecutor node.type = some ex)
    (herr : ex caps node.id node.config st.state = .error msg)
    (hv : node.id ∉ visited)
    (hend : node.type ≠ "end") :
    execute_node caps node st =
      (errorResult msg,
       { st with logs := st.logs ++ [⟨node.id, node.type, "failed", none, some msg, none⟩] }) ∧
    walk caps nodes edges adj (fuel + 1) visited node st =
      (match select_next node (errorResult msg) edges adj nodes with
       | none =>
         some (record_output node (errorResult msg)
                 { st with logs := st.logs ++
                     [⟨node.id, node.type, "failed", none, some msg, none⟩] },
               [⟨node.id, node.type, errorResult msg⟩])
       | some nxt =>
         (walk caps nodes edges adj fuel (insert node.id visited) nxt
             (record_output node (errorResult msg)
               { st with logs := st.logs ++
                   [⟨node.id, node.type, "failed", none, some msg, none⟩] })).map
           (fun p => (p.1, ⟨node.id, node.type, errorResult msg⟩ :: p.2))) := by
  have hexec : execute_node caps node st =
      (errorResult msg,
       { st with logs := st.logs ++ [⟨node.id, node.type, "failed", none, some msg, none⟩] }) := by
    unfold execute_node
    simp only [hreg, herr]
  refine ⟨hexec, ?_⟩
  rw [walk]
  rw [if_neg (fun hc => hv hc.1)]
  rw [hexec]
  rw [if_neg hend]
  rfl

/-- Witness for C1: the llm node of start → llm → end under capabilities
whose chat completion raises "chat unavailable". -/
theorem executor_exception_caught_witness :
    (lookupExecutor "llm" = some llm_execute ∧
     llm_execute stubCaps "l1" (.vDict []) (initialState []).state =
       .error "chat unavailable" ∧
     ("l1" : String) ∉ (∅ : Finset String) ∧ ("llm" : String) ≠ "end") ∧
    (execute_node stubCaps ⟨"l1", "llm", .vDict []⟩ (initialState []) =
      (errorResult "chat unavailable",
       { initialState [] with logs := (initialState []).logs ++
           [⟨"l1", "llm", "failed", none, some "chat unavailable", none⟩] }) ∧
    walk stubCaps wfLLM.nodes wfLLM.edges (build_adjacency wfLLM.edges) (2 + 1) ∅
        ⟨"l1", "llm", .vDict []⟩ (initialState []) =
      (match select_next ⟨"l1", "llm", .vDict []⟩ (errorResult "chat unavailable")
          wfLLM.edges (build_adjacency wfLLM.edges) wfLLM.nodes with
       | none =>
         some (record_output ⟨"l1", "llm", .vDict []⟩ (errorResult "chat unavailable")
                 { initialState [] with logs := (initialState []).logs ++
                     [⟨"l1", "llm", "failed", none, some "chat unavailable", none⟩] },
               [⟨"l1", "llm", errorResult "chat unavailable"⟩])
       | some nxt =>
         (walk stubCaps wfLLM.nodes wfLLM.edges (build_adjacency wfLLM.edges) 2
             (insert "l1" ∅) nxt
             (record_output ⟨"l1", "llm", .vDict []⟩ (errorResult "chat unavailable")
               { initialState [] with logs := (initialState []).logs ++
                   [⟨"l1", "llm", "failed", none, some "chat unavailable", none⟩] })).map
           (fun p => (p.1, ⟨"l1", "llm", errorResult "chat unavailable"⟩ :: p.2)))) :=
  ⟨⟨rfl, rfl, by simp, by decide⟩,
   executor_exception_caught_and_run_continues stubCaps wfLLM.nodes wfLLM.edges
     (build_adjacency wfLLM.edges) 2 ∅ ⟨"l1", "llm", .vDict []⟩ (initialState [])
     llm_execute "chat unavailable" rfl rfl (by simp) (by decide)⟩

/-! Claim C8. -/

/-- For a non-empty node list `_find_start_node` always yields a node: the
first "start"-kind node, else the first node in declaration order. -/
theorem find_start_node_isSome (nodes : List Node) (h : nodes ≠ []) :
    (find_start_node nodes).isSome := by
  unfold find_start_node
  cases hf : nodes.find? (fun n => n.type == "start") with
  | some n => rfl
  | none =>
    cases nodes with
    | nil => exact absurd rfl h
    | cons x xs => rfl

/-- Counterexample to C8 as stated: a workflow whose node list is empty does
not fail — `execute` returns the empty result before looking for a start
node, and the execution record is marked "completed". -/
theorem empty_workflow_completes_counterexample :
    execute_workflow_status stubCaps ⟨[], []⟩ [] 5 = some ("completed", none) ∧
    engine_execute stubCaps ⟨[], []⟩ [] 5 = some (.ok ⟨[], [], [], 0⟩) := ⟨rfl, rfl⟩

/-- C8 as amended: an empty node list terminates immediately with the empty
result and a "completed" record; for a non-empty node list a start node is
always located (first "start"-kind node, else the first node), so the
"No start node found" fatal path is unreachable. -/
theorem no_start_node_fatal_path_unreachable
    (caps : Caps) (wf : WorkflowDef) (inputs : List (String × Val)) (fuel : Nat) :
    (wf.nodes = [] →
      engine_execute caps wf inputs fuel = some (.ok ⟨[], [], [], 0⟩) ∧
      execute_workflow_status caps wf inputs fuel = some ("completed", none)) ∧
    (wf.nodes ≠ [] → (find_start_node wf.nodes).isSome) := by
  constructor
  · intro h
    have he : wf.nodes.isEmpty = true := by simp [h]
    constructor
    · simp only [engine_execute, engine_execute_traced, he, if_true]
      rfl
    · simp only [execute_workflow_status, engine_execute, engine_execute_traced, he, if_true]
      rfl
  · intro h
    exact find_start_node_isSome wf.nodes h

/-- Witness for C8: the empty workflow, and the two-node graph
start → end. -/
theorem no_start_node_fatal_path_witness :
    ((⟨[], []⟩ : WorkflowDef).nodes = [] ∧
     engine_execute stubCaps ⟨[], []⟩ [] 7 = some (.ok ⟨[], [], [], 0⟩) ∧
     execute_workflow_status stubCaps ⟨[], []⟩ [] 7 = some ("completed", none)) ∧
    (wfStartEnd.nodes ≠ [] ∧ (find_start_node wfStartEnd.nodes).isSome) :=
  ⟨⟨rfl, (no_start_node_fatal_path_unreachable stubCaps ⟨[], []⟩ [] 7).1 rfl⟩,
   ⟨by simp [wfStartEnd],
    (no_start_node_fatal_path_unreachable stubCaps wfStartEnd [] 7).2
      (by simp [wfStartEnd])⟩⟩

/-! Claim C4. -/

/-- Counterexample to C4 as stated: in the run of start → http → end where
the HTTP call raises, no log entry has status "failed" — the http executor
catches its own exception, so its log entry says "completed" (the claim
demands exactly one "failed" entry). -/
theorem http_failure_no_failed_log_counterexample :
    execute_workflow_status stubCaps wfHttp [] 9 = some ("completed", none) ∧
    (match engine_execute stubCaps wfHttp [] 9 with
     | some (.ok res) =>
       (res.logs.map (fun l => (l.node_id, l.status)),
        (res.logs.filter (fun l => l.status == "failed")).length)
     | _ => ([], 37)) =
      ([("s1", "completed"), ("h1", "completed"), ("e1", "completed")], 0) := ⟨rfl, rfl⟩

/-- C4 as amended: with every HTTP call raising `e`, the run of
start → http → end still reaches the end node and the record is marked
"completed"; but the http node's failure is absorbed inside its executor, so
its NodeLog has status "completed" and the failure is visible only in its
result `{"output": None, "error": e, "status_code": 0}` — no NodeLog has
status "failed". -/
theorem http_failure_run_still_completes (e : String) :
    (engine_execute_traced (httpFailCaps e) wfHttp [] 9).map (Except.map (fun p =>
        (p.2.map (fun t => t.node_id),
         p.1.logs.map (fun l => (l.node_id, l.status)),
         alookup p.1.outputs "h1"))) =
      some (.ok (["s1", "h1", "e1"],
                 [("s1", "completed"), ("h1", "completed"), ("e1", "completed")],
                 some (http_err e))) ∧
    execute_workflow_status (httpFailCaps e) wfHttp [] 9 = some ("completed", none) :=
  ⟨rfl, rfl⟩

/-! Claim C2. -/

/-- `_execute_node` appends exactly one log entry, carrying the node's id
and kind, when the kind has a registered executor — and none otherwise. -/
theorem execute_node_logs_map (caps : Caps) (node : Node) (st : EngineSt) :
    ((execute_node caps node st).2).logs.map (fun l => (l.node_id, l.node_type)) =
      st.logs.map (fun l => (l.node_id, l.node_type)) ++
      (if (lookupExecutor node.type).isSome then [(node.id, node.type)] else []) := by
  unfold execute_node
  cases hl : lookupExecutor node.type with
  | none => simp
  | some ex =>
    cases hr : ex caps node.id node.config st.state with
    | ok result => simp [hr]
    | error e => simp [hr]

/-- Along any terminating walk, the log entries grow by exactly the
registered-kind trace entries, in traversal order. -/
theorem walk_logs_map (caps : Caps) (nodes : List Node) (edges : List Edge)
    (adj : List (String × List String)) :
    ∀ (fuel : Nat) (visited : Finset String) (current : Node) (st st' : EngineSt)
      (tr : List TraceEntry),
      walk caps nodes edges adj fuel visited current st = some (st', tr) →
      st'.logs.map (fun l => (l.node_id, l.node_type)) =
        st.logs.map (fun l => (l.node_id, l.node_type)) ++
        (tr.filter (fun t => (lookupExecutor t.node_type).isSome)).map
          (fun t => (t.node_id, t.node_type)) := by
  intro fuel
  induction fuel with
  | zero =>
    intro visited current st st' tr h
    exact absurd h (by rw [walk]; exact Option.noConfusion)
  | succ f ih =>
    intro visited current st st' tr h
    rw [walk] at h
    by_cases hbr : current.id ∈ visited ∧ current.type ≠ "loop"
    · rw [if_pos hbr] at h
      injection h with h1
      injection h1 with h2 h3
      subst h2
      subst h3
      simp
    · rw [if_neg hbr] at h
      by_cases hend : current.type = "end"
      · rw [if_pos hend] at h
        injection h with h1
        injection h1 with h2 h3
        subst h2
        subst h3
        simp only [execute_node_logs_map, ]
        by_cases hreg : (lookupExecutor current.type).isSome <;>
          simp [hreg, List.filter_cons]
      · rw [if_neg hend] at h
        cases hsel : select_next current (execute_node caps current st).1 edges adj nodes with
        | none =>
          rw [hsel] at h
          injection h with h1
          injection h1 with h2 h3
          subst h2
          subst h3
          simp only [execute_node_logs_map]
          by_cases hreg : (lookupExecutor current.type).isSome <;>
            simp [hreg, List.filter_cons]
        | some nxt =>
          rw [hsel] at h
          rcases Option.map_eq_some'.mp h with ⟨⟨st'', tr''⟩, hw, heq⟩
          injection heq with h2 h3
          subst h2
          subst h3
          have hrec := ih _ _ _ _ _ hw
          simp only [hrec]
          simp only [execute_node_logs_map]
          by_cases hreg : (lookupExecutor current.type).isSome <;>
            simp [hreg, List.filter_cons]

/-- C2 as amended: after any terminating run, the log list carries exactly
one entry — in traversal order — per execution attempt of a node whose kind
has a registered executor; an attempt on an unknown kind appends none. -/
theorem logs_one_entry_per_registered_execution
    (caps : Caps) (wf : WorkflowDef) (inputs : List (String × Val)) (fuel : Nat)
    (res : WalkResult) (tr : List TraceEntry)
    (h : engine_execute_traced caps wf inputs fuel = some (.ok (res, tr))) :
    res.logs.map (fun l => (l.node_id, l.node_type)) =
      (tr.filter (fun t => (lookupExecutor t.node_type).isSome)).map
        (fun t => (t.node_id, t.node_type)) := by
  unfold engine_execute_traced at h
  split at h
  · injection h with h1
    injection h1 with h2
    injection h2 with h3 h4
    subst h3
    subst h4
    simp
  · split at h
    · injection h with h1
      exact Except.noConfusion h1
    · rename_i start hs
      split at h
      · exact Option.noConfusion h
      · rename_i st1 tr1 hw
        injection h with h1
        injection h1 with h2
        injection h2 with h3 h4
        subst h3
        subst h4
        have := walk_logs_map caps wf.nodes wf.edges (build_adjacency wf.edges)
          fuel ∅ start (initialState inputs) st1 tr1 hw
        simpa using this

/-- Counterexample to C2 as stated: in the run of start → tool → end three
nodes are executed (three trace entries, three `node_outputs` writes) but
only two log entries are appended — the unknown-kind "tool" execution leaves
no log. -/
theorem unknown_kind_execution_has_no_log_counterexample :
    (match engine_execute_traced stubCaps wfTool [] 9 with
     | some (.ok (res, tr)) => (tr.length, res.logs.length)
     | _ => (0, 0)) = (3, 2) := rfl

/-- The start node's result in the run of start → end with empty inputs. -/
def seOut1 : Val := .vDict [("output", .vDict [])]

/-- The end node's result in the run of start → end with empty inputs. -/
def seOut2 : Val := .vDict [("output", seOut1)]

/-- Witness for C2: the concrete run of start → end. -/
theorem logs_one_entry_per_registered_execution_witness :
    engine_execute_traced stubCaps wfStartEnd [] 9 =
      some (.ok (⟨[("s1", seOut1), ("e1", seOut2)], [("s1", seOut1), ("e1", seOut2)],
                  [⟨"s1", "start", "completed", some seOut1, none, some 0⟩,
                   ⟨"e1", "end", "completed", some seOut2, none, some 0⟩], 0⟩,
                 [⟨"s1", "start", seOut1⟩, ⟨"e1", "end", seOut2⟩])) ∧
    (WalkResult.mk [("s1", seOut1), ("e1", seOut2)] [("s1", seOut1), ("e1", seOut2)]
        [⟨"s1", "start", "completed", some seOut1, none, some 0⟩,
         ⟨"e1", "end", "completed", some seOut2, none, some 0⟩] 0).logs.map
        (fun l => (l.node_id, l.node_type)) =
      (([⟨"s1", "start", seOut1⟩, ⟨"e1", "end", seOut2⟩] : List TraceEntry).filter
          (fun t => (lookupExecutor t.node_type).isSome)).map
        (fun t => (t.node_id, t.node_type)) :=
  ⟨rfl,
   logs_one_entry_per_registered_execution stubCaps wfStartEnd [] 9 _ _ rfl⟩

/-! Claim C9. -/

/-- The streaming walker is the batch walker with one `nodeDone` event per
trace entry: both run the same node executions through the same states. -/
theorem walk_stream_eq_walk (caps : Caps) (nodes : List Node) (edges : List Edge)
    (adj : List (String × List String)) :
    ∀ (fuel : Nat) (visited : Finset String) (current : Node) (st : EngineSt),
      walk_stream caps nodes edges adj fuel visited current st =
        (walk caps nodes edges adj fuel visited current st).map
          (fun p => (p.1, p.2.map (fun t => StreamEvent.nodeDone t.node_id t.node_type t.result))) := by
  intro fuel
  induction fuel with
  | zero => intro visited current st; rfl
  | succ f ih =>
    intro visited current st
    rw [walk_stream, walk]
    by_cases hbr : current.id ∈ visited ∧ current.type ≠ "loop"
    · rw [if_pos hbr, if_pos hbr]
      rfl
    · rw [if_neg hbr, if_neg hbr]
      by_cases hend : current.type = "end"
      · rw [if_pos hend, if_pos hend]
        rfl
      · rw [if_neg hend, if_neg hend]
        cases hsel : select_next current (execute_node caps current st).1 edges adj nodes with
        | none => rfl
        | some nxt =>
          simp only [ih, Option.map_map]
          rfl

/-- C9 (streaming walker modelled from spec section 4.4, the source class is
not in the tree): for every graph, inputs and deterministic capabilities,
the batch run and the streaming run agree — fuel-out against fuel-out,
raised error against raised error, and on normal termination the final
`node_outputs` and `total_tokens` coincide, with the streaming run emitting
its per-node events plus a final done event in place of one return value. -/
theorem streaming_batch_parity (caps : Caps) (wf : WorkflowDef)
    (inputs : List (String × Val)) (fuel : Nat) :
    (engine_execute_stream caps wf inputs fuel).map (Except.map (fun p =>
        (p.1.state.node_outputs, p.1.total_tokens))) =
      (engine_execute_traced caps wf inputs fuel).map (Except.map (fun p =>
        (p.1.outputs, p.1.total_tokens))) ∧
    (engine_execute_stream caps wf inputs fuel).map (Except.map (fun p =>
        p.2.getLast?)) =
      (engine_execute_traced caps wf inputs fuel).map (Except.map (fun _ =>
        some StreamEvent.finished)) := by
  unfold engine_execute_stream engine_execute_traced
  by_cases he : wf.nodes.isEmpty
  · rw [if_pos he, if_pos he]
    constructor <;> rfl
  · rw [if_neg he, if_neg he]
    cases hs : find_start_node wf.nodes with
    | none => constructor <;> rfl
    | some start =>
      have hw := walk_stream_eq_walk caps wf.nodes wf.edges (build_adjacency wf.edges)
        fuel ∅ start (initialState inputs)
      cases hwalk : walk caps wf.nodes wf.edges (build_adjacency wf.edges) fuel ∅ start
          (initialState inputs) with
      | none =>
        rw [hwalk] at hw
        refine ⟨?_, ?_⟩ <;> simp only [hw, hwalk] <;> rfl
      | some p =>
        rw [hwalk] at hw
        refine ⟨?_, ?_⟩
        · simp only [hw, hwalk]
          rfl
        · simp only [hw, hwalk]
          show some (Except.ok (((p.2.map (fun t =>
              StreamEvent.nodeDone t.node_id t.node_type t.result)) ++
              [StreamEvent.finished]).getLast?)) = some (Except.ok (some StreamEvent.finished))
          rw [List.getLast?_concat]

/-- Witness for C9: the concrete run of start → end through both walkers. -/
theorem streaming_batch_parity_witness :
    (engine_execute_stream stubCaps wfStartEnd [] 9).map (Except.map (fun p =>
        (p.1.state.node_outputs, p.1.total_tokens))) =
      (engine_execute_traced stubCaps wfStartEnd [] 9).map (Except.map (fun p =>
        (p.1.outputs, p.1.total_tokens))) ∧
    (engine_execute_stream stubCaps wfStartEnd [] 9).map (Except.map (fun p =>
        p.2.getLast?)) =
      (engine_execute_traced stubCaps wfStartEnd [] 9).map (Except.map (fun _ =>
        some StreamEvent.finished)) :=
  streaming_batch_parity stubCaps wfStartEnd [] 9

/-! Claim C5. -/

/-- One directed edge hop in the authored graph. -/
def EdgeStep (edges : List Edge) (a b : String) : Prop :=
  ∃ e ∈ edges, e.source = a ∧ e.target = b

/-- Looking up after one `adjacency.setdefault(source, []).append(target)`. -/
theorem alookup_adjAppend (adj : List (String × List String)) (s t x : String) :
    alookup (adjAppend adj s t) x =
      if s = x then some ((alookup adj x).getD [] ++ [t]) else alookup adj x := by
  induction adj with
  | nil => simp [adjAppend, alookup]
  | cons kv rest ih =>
    obtain ⟨k, vs⟩ := kv
    by_cases hk : k = s
    · subst hk
      simp only [adjAppend, if_pos rfl, alookup]
      by_cases hx : k = x
      · rw [if_pos hx, if_pos hx, if_pos hx]
        simp
      · rw [if_neg hx, if_neg hx, if_neg hx]
    · simp only [adjAppend, if_neg hk, alookup]
      by_cases hx : k = x
      · have hsx : ¬s = x := fun h => hk (by rw [h, hx])
        rw [if_pos hx, if_neg hsx, if_pos hx]
      · rw [if_neg hx, ih, if_neg hx]

/-- Reading after one `adjacency[source].append(target)` write. -/
theorem adjGet_adjAppend (adj : List (String × List String)) (s t x : String) :
    adjGet (adjAppend adj s t) x =
      if s = x then adjGet adj x ++ [t] else adjGet adj x := by
  unfold adjGet
  rw [alookup_adjAppend]
  by_cases h : s = x <;> simp [h]

/-- The adjacency built by `_build_adjacency` maps each source id to the
targets of its edges, in edge order. -/
theorem adjGet_build (edges : List Edge) :
    ∀ (acc : List (String × List String)) (x : String),
      adjGet (edges.foldl (fun adj e => adjAppend adj e.source e.target) acc) x =
        adjGet acc x ++ (edges.filter (fun e => e.source == x)).map (fun e => e.target) := by
  induction edges with
  | nil => intro acc x; simp
  | cons e rest ih =>
    intro acc x
    simp only [List.foldl_cons, List.filter_cons]
    rw [ih]
    rw [adjGet_adjAppend]
    by_cases hx : e.source = x
    · rw [if_pos hx]
      have hb : (e.source == x) = true := by simp [hx]
      simp [hb]
    · rw [if_neg hx]
      have hb : (e.source == x) = false := by simp [hx]
      simp [hb]

/-- `adjacency.get(x, [])` over the built map. -/
theorem adjGet_build_adjacency (edges : List Edge) (x : String) :
    adjGet (build_adjacency edges) x =
      (edges.filter (fun e => e.source == x)).map (fun e => e.target) := by
  unfold build_adjacency
  rw [adjGet_build]
  simp [adjGet, alookup]

/-- `_get_next_node` only returns a node of the graph, reached over an edge
leaving the current node. -/
theorem get_next_node_sound (edges : List Edge) (nodes : List Node) (src : String)
    (n : Node) (h : get_next_node src (build_adjacency edges) nodes = some n) :
    n ∈ nodes ∧ EdgeStep edges src n.id := by
  unfold get_next_node at h
  split at h
  · exact Option.noConfusion h
  · rename_i t ts ht
    refine ⟨List.mem_of_find?_eq_some h, ?_⟩
    have hid : n.id = t := by simpa using List.find?_some h
    have htm : t ∈ adjGet (build_adjacency edges) src := by rw [ht]; exact List.mem_cons_self t ts
    rw [adjGet_build_adjacency] at htm
    obtain ⟨e, hef, het⟩ := List.mem_map.mp htm
    obtain ⟨hee, hes⟩ := List.mem_filter.mp hef
    exact ⟨e, hee, by simpa using hes, by rw [hid, het]⟩

/-- `_get_next_node_for_branch` only returns a node of the graph, reached
over an edge leaving the condition node. -/
theorem get_next_node_for_branch_sound :
    ∀ (es : List Edge) (src branch : String) (nodes : List Node) (n : Node),
      get_next_node_for_branch src branch es nodes = some n →
      n ∈ nodes ∧ ∃ e ∈ es, e.source = src ∧ e.target = n.id := by
  intro es
  induction es with
  | nil =>
    intro src branch nodes n h
    exact absurd h (by rw [get_next_node_for_branch]; exact Option.noConfusion)
  | cons e rest ih =>
    intro src branch nodes n h
    rw [get_next_node_for_branch] at h
    by_cases hsrc : e.source = src
    · rw [if_pos hsrc] at h
      by_cases h1 : branch = "true" ∧ (asciiLower e.label = "true" ∨
          asciiLower e.sourceHandle = "true" ∨ asciiLower e.label = "")
      · rw [if_pos h1] at h
        cases hf : nodes.find? (fun nd => nd.id == e.target) with
        | some nd =>
          rw [hf] at h
          injection h with h'
          subst h'
          refine ⟨List.mem_of_find?_eq_some hf, e, List.mem_cons_self e rest, hsrc, ?_⟩
          have := List.find?_some hf
          simp at this
          exact this.symm
        | none =>
          rw [hf] at h
          obtain ⟨hm, e', he', hp⟩ := ih src branch nodes n h
          exact ⟨hm, e', List.mem_cons_of_mem e he', hp⟩
      · rw [if_neg h1] at h
        by_cases h2 : branch = "false" ∧ (asciiLower e.label = "false" ∨
            asciiLower e.sourceHandle = "false")
        · rw [if_pos h2] at h
          cases hf : nodes.find? (fun nd => nd.id == e.target) with
          | some nd =>
            rw [hf] at h
            injection h with h'
            subst h'
            refine ⟨List.mem_of_find?_eq_some hf, e, List.mem_cons_self e rest, hsrc, ?_⟩
            have := List.find?_some hf
            simp at this
            exact this.symm
          | none =>
            rw [hf] at h
            obtain ⟨hm, e', he', hp⟩ := ih src branch nodes n h
            exact ⟨hm, e', List.mem_cons_of_mem e he', hp⟩
        · rw [if_neg h2] at h
          obtain ⟨hm, e', he', hp⟩ := ih src branch nodes n h
          exact ⟨hm, e', List.mem_cons_of_mem e he', hp⟩
    · rw [if_neg hsrc] at h
      obtain ⟨hm, e', he', hp⟩ := ih src branch nodes n h
      exact ⟨hm, e', List.mem_cons_of_mem e he', hp⟩

/-- Next-node selection only returns a node of the graph, reached over an
edge leaving the current node. -/
theorem select_next_sound (node : Node) (result : Val) (edges : List Edge)
    (nodes : List Node) (n : Node)
    (h : select_next node result edges (build_adjacency edges) nodes = some n) :
    n ∈ nodes ∧ EdgeStep edges node.id n.id := by
  unfold select_next at h
  by_cases hc : node.type = "condition"
  · rw [if_pos hc] at h
    obtain ⟨hm, e, he, hs, ht⟩ := get_next_node_for_branch_sound edges node.id
      (branchOf result) nodes n h
    exact ⟨hm, e, he, hs, ht⟩
  · rw [if_neg hc] at h
    exact get_next_node_sound edges nodes node.id n h

/-- `_find_start_node` returns a node of the list. -/
theorem find_start_node_mem (nodes : List Node) (n : Node)
    (h : find_start_node nodes = some n) : n ∈ nodes := by
  unfold find_start_node at h
  split at h
  · rename_i m hf
    injection h with h'
    subst h'
    exact List.mem_of_find?_eq_some hf
  · exact List.mem_of_mem_head? h

/-- The id set of a node list. -/
def nodeIds (nodes : List Node) : Finset String := (nodes.map Node.id).toFinset

/-- The value of `engine_execute_traced` on a terminating walk. -/
theorem engine_execute_traced_eq_of (caps : Caps) (wf : WorkflowDef)
    (inputs : List (String × Val)) (fuel : Nat) (start : Node) (st' : EngineSt)
    (tr : List TraceEntry)
    (he : wf.nodes.isEmpty = false)
    (hs : find_start_node wf.nodes = some start)
    (hw : walk caps wf.nodes wf.edges (build_adjacency wf.edges) fuel ∅ start
      (initialState inputs) = some (st', tr)) :
    engine_execute_traced caps wf inputs fuel =
      some (.ok (⟨st'.state.node_outputs, st'.state.node_outputs, st'.logs,
        st'.total_tokens⟩, tr)) := by
  unfold engine_execute_traced
  rw [if_neg (by simp [he])]
  split
  · rename_i hn
    rw [hs] at hn
    exact Option.noConfusion hn
  · rename_i start' hs'
    rw [hs] at hs'
    injection hs' with hss
    subst hss
    split
    · rename_i hw'
      rw [hw] at hw'
      exact Option.noConfusion hw'
    · rename_i st'' tr'' hw'
      rw [hw] at hw'
      injection hw' with h1
      injection h1 with h2 h3
      subst h2
      subst h3
      rfl

/-- Termination of the traversal loop when no loop-kind node lies on a
directed edge cycle: every visited id can still reach the current node, so a
revisited node lies on a cycle and is therefore not of kind "loop", which
makes the walk break; fuel exceeding the number of unvisited ids never runs
out. -/
theorem walk_isSome (caps : Caps) (nodes : List Node) (edges : List Edge)
    (hloop : ∀ n ∈ nodes, n.type = "loop" →
      ¬ Relation.TransGen (EdgeStep edges) n.id n.id) :
    ∀ (fuel : Nat) (visited : Finset String) (current : Node) (st : EngineSt),
      current ∈ nodes →
      (∀ v ∈ visited, Relation.TransGen (EdgeStep edges) v current.id) →
      visited ⊆ nodeIds nodes →
      (nodeIds nodes \ visited).card < fuel →
      (walk caps nodes edges (build_adjacency edges) fuel visited current st).isSome := by
  intro fuel
  induction fuel with
  | zero =>
    intro visited current st _ _ _ hcard
    exact absurd hcard (Nat.not_lt_zero _)
  | succ f ih =>
    intro visited current st hmem hinv hsub hcard
    rw [walk]
    by_cases hbr : current.id ∈ visited ∧ current.type ≠ "loop"
    · rw [if_pos hbr]
      rfl
    · rw [if_neg hbr]
      have hnv : current.id ∉ visited := by
        intro hin
        have htype : current.type = "loop" := by
          by_contra hne
          exact hbr ⟨hin, hne⟩
        exact hloop current hmem htype (hinv _ hin)
      by_cases hend : current.type = "end"
      · rw [if_pos hend]
        rfl
      · rw [if_neg hend]
        cases hsel : select_next current (execute_node caps current st).1 edges
            (build_adjacency edges) nodes with
        | none => rfl
        | some nxt =>
          rw [Option.isSome_map']
          obtain ⟨hnm, hstep⟩ := select_next_sound current
            (execute_node caps current st).1 edges nodes nxt hsel
          have hid : current.id ∈ nodeIds nodes := by
            simp only [nodeIds, List.mem_toFinset, List.mem_map]
            exact ⟨current, hmem, rfl⟩
          apply ih (insert current.id visited) nxt _ hnm
          · intro v hv
            rcases Finset.mem_insert.mp hv with rfl | hv'
            · exact Relation.TransGen.single hstep
            · exact Relation.TransGen.tail (hinv v hv') hstep
          · exact Finset.insert_subset hid hsub
          · have hmemd : current.id ∈ nodeIds nodes \ visited :=
              Finset.mem_sdiff.mpr ⟨hid, hnv⟩
            have heq : nodeIds nodes \ insert current.id visited =
                (nodeIds nodes \ visited).erase current.id := by
              ext y
              simp only [Finset.mem_sdiff, Finset.mem_insert, Finset.mem_erase]
              tauto
            rw [heq, Finset.card_erase_of_mem hmemd]
            have hpos : 0 < (nodeIds nodes \ visited).card :=
              Finset.card_pos.mpr ⟨current.id, hmemd⟩
            omega

/-- The well-formedness of an execution trace relative to a visited set:
each executed node either was unvisited or would have had to be of loop
kind, and its id is visited from then on. -/
def TraceOK : Finset String → List TraceEntry → Prop
  | _, [] => True
  | visited, t :: rest =>
    ¬(t.node_id ∈ visited ∧ t.node_type ≠ "loop") ∧
    TraceOK (insert t.node_id visited) rest

/-- Every trace the walk produces is well-formed over its visited set. -/
theorem walk_traceOK (caps : Caps) (nodes : List Node) (edges : List Edge)
    (adj : List (String × List String)) :
    ∀ (fuel : Nat) (visited : Finset String) (current : Node) (st st' : EngineSt)
      (tr : List TraceEntry),
      walk caps nodes edges adj fuel visited current st = some (st', tr) →
      TraceOK visited tr := by
  intro fuel
  induction fuel with
  | zero =>
    intro visited current st st' tr h
    exact absurd h (by rw [walk]; exact Option.noConfusion)
  | succ f ih =>
    intro visited current st st' tr h
    rw [walk] at h
    by_cases hbr : current.id ∈ visited ∧ current.type ≠ "loop"
    · rw [if_pos hbr] at h
      injection h with h1
      injection h1 with h2 h3
      subst h3
      exact trivial
    · rw [if_neg hbr] at h
      by_cases hend : current.type = "end"
      · rw [if_pos hend] at h
        injection h with h1
        injection h1 with h2 h3
        subst h3
        exact ⟨hbr, trivial⟩
      · rw [if_neg hend] at h
        cases hsel : select_next current (execute_node caps current st).1 edges adj nodes with
        | none =>
          rw [hsel] at h
          injection h with h1
          injection h1 with h2 h3
          subst h3
          exact ⟨hbr, trivial⟩
        | some nxt =>
          rw [hsel] at h
          rcases Option.map_eq_some'.mp h with ⟨⟨st'', tr''⟩, hw, heq⟩
          injection heq with h2 h3
          subst h3
          exact ⟨hbr, ih _ _ _ _ _ hw⟩

/-- In a well-formed trace, an id already visited is never executed again
with a non-loop kind. -/
theorem traceOK_count_zero :
    ∀ (tr : List TraceEntry) (visited : Finset String) (i : String),
      TraceOK visited tr → i ∈ visited →
      (tr.filter (fun t => t.node_id == i && t.node_type != "loop")).length = 0 := by
  intro tr
  induction tr with
  | nil => intro visited i _ _; rfl
  | cons t rest ih =>
    intro visited i ⟨hc, hrest⟩ hi
    rw [List.filter_cons]
    by_cases hp : (t.node_id == i && t.node_type != "loop") = true
    · exfalso
      have hid : t.node_id = i := by
        have := (Bool.and_eq_true _ _).mp hp
        simpa using this.1
      have hnl : t.node_type ≠ "loop" := by
        have := (Bool.and_eq_true _ _).mp hp
        simpa using this.2
      exact hc ⟨hid ▸ hi, hnl⟩
    · rw [if_neg hp]
      exact ih _ i hrest (Finset.mem_insert_of_mem hi)

/-- In a well-formed trace, no id is executed with a non-loop kind more than
once. -/
theorem traceOK_count_le_one :
    ∀ (tr : List TraceEntry) (visited : Finset String) (i : String),
      TraceOK visited tr →
      (tr.filter (fun t => t.node_id == i && t.node_type != "loop")).length ≤ 1 := by
  intro tr
  induction tr with
  | nil => intro visited i _; simp
  | cons t rest ih =>
    intro visited i ⟨hc, hrest⟩
    rw [List.filter_cons]
    by_cases hp : (t.node_id == i && t.node_type != "loop") = true
    · rw [if_pos hp]
      have hid : t.node_id = i := by
        have := (Bool.and_eq_true _ _).mp hp
        simpa using this.1
      have hz := traceOK_count_zero rest (insert t.node_id visited) i hrest
        (hid ▸ Finset.mem_insert_self t.node_id visited)
      simp [hz]
    · rw [if_neg hp]
      exact ih _ i hrest

/-- C5: when every node of loop kind is off every directed edge cycle, the
batch walker terminates within `|nodes| + 1` iterations — each iteration
either visits a fresh node id or breaks on a revisited node, which under the
hypothesis is never of loop kind — and no node is executed with a non-loop
kind more than once. -/
theorem nonloop_cycle_guard_terminates (caps : Caps) (wf : WorkflowDef)
    (inputs : List (String × Val)) (fuel : Nat)
    (hloop : ∀ n ∈ wf.nodes, n.type = "loop" →
      ¬ Relation.TransGen (EdgeStep wf.edges) n.id n.id)
    (hfuel : wf.nodes.length < fuel) :
    ∃ out, engine_execute_traced caps wf inputs fuel = some out ∧
      ∀ (res : WalkResult) (tr : List TraceEntry), out = Except.ok (res, tr) →
        ∀ i : String,
          (tr.filter (fun t => t.node_id == i && t.node_type != "loop")).length ≤ 1 := by
  by_cases he : wf.nodes.isEmpty
  · have hv : engine_execute_traced caps wf inputs fuel =
        some (.ok (⟨[], [], [], 0⟩, [])) := by
      unfold engine_execute_traced
      rw [if_pos he]
    rw [hv]
    refine ⟨_, rfl, ?_⟩
    intro res tr hout i
    injection hout with h1
    injection h1 with h2 h3
    subst h3
    simp
  · have hne : wf.nodes ≠ [] := by
      intro h0
      rw [h0] at he
      exact he rfl
    obtain ⟨start, hs⟩ := Option.isSome_iff_exists.mp (find_start_node_isSome wf.nodes hne)
    have hsm : start ∈ wf.nodes := find_start_node_mem wf.nodes start hs
    have hcard : (nodeIds wf.nodes \ (∅ : Finset String)).card < fuel := by
      have h1 : (nodeIds wf.nodes \ (∅ : Finset String)).card = (nodeIds wf.nodes).card := by
        simp
      have h2 : (nodeIds wf.nodes).card ≤ wf.nodes.length := by
        calc (nodeIds wf.nodes).card ≤ (wf.nodes.map Node.id).length :=
              List.toFinset_card_le _
          _ = wf.nodes.length := List.length_map _ _
      omega
    have hterm := walk_isSome caps wf.nodes wf.edges hloop fuel ∅ start
      (initialState inputs) hsm (by intro v hv; exact absurd hv (Finset.not_mem_empty v))
      (Finset.empty_subset _) hcard
    obtain ⟨⟨st', tr⟩, hw⟩ := Option.isSome_iff_exists.mp hterm
    rw [engine_execute_traced_eq_of caps wf inputs fuel start st' tr
      (by simpa using he) hs hw]
    refine ⟨_, rfl, ?_⟩
    intro res tr' hout i
    injection hout with h1
    injection h1 with h2 h3
    subst h3
    exact traceOK_count_le_one tr ∅ i
      (walk_traceOK caps wf.nodes wf.edges (build_adjacency wf.edges) fuel ∅ start
        (initialState inputs) st' tr hw)

/-- Witness for C5: the graph start → end, which has no loop nodes at all,
run with fuel 3 over its 2 nodes. -/
theorem nonloop_cycle_guard_witness :
    ((∀ n ∈ wfStartEnd.nodes, n.type = "loop" →
        ¬ Relation.TransGen (EdgeStep wfStartEnd.edges) n.id n.id) ∧
     wfStartEnd.nodes.length < 3) ∧
    (∃ out, engine_execute_traced stubCaps wfStartEnd [] 3 = some out ∧
      ∀ (res : WalkResult) (tr : List TraceEntry), out = Except.ok (res, tr) →
        ∀ i : String,
          (tr.filter (fun t => t.node_id == i && t.node_type != "loop")).length ≤ 1) :=
  ⟨⟨by
      intro n hn htype
      simp only [wfStartEnd, List.mem_cons, List.not_mem_nil, or_false] at hn
      rcases hn with rfl | rfl <;> simp_all,
    by simp [wfStartEnd]⟩,
   nonloop_cycle_guard_terminates stubCaps wfStartEnd [] 3
     (by
       intro n hn htype
       simp only [wfStartEnd, List.mem_cons, List.not_mem_nil, or_false] at hn
       rcases hn with rfl | rfl <;> simp_all)
     (by simp [wfStartEnd])⟩

/-! Claim C7. -/

/-- The input-key pattern spelled out: it starts with a brace. -/
theorem placeholder_data (k : String) :
    (placeholder k).data = '\x7b' :: '\x7b' :: (k.data ++ ['\x7d', '\x7d']) := rfl

/-- The node-output pattern spelled out: it starts with a brace. -/
theorem nodes_placeholder_data (nid : String) :
    (nodes_placeholder nid).data =
      '\x7b' :: '\x7b' :: ('n' :: 'o' :: 'd' :: 'e' :: 's' :: '.' :: (nid.data ++ ['\x7d', '\x7d'])) := rfl

/-- A string without an opening brace contains no pattern starting with
one. -/
theorem hasSubst_false_of_brace_notin (pt : List Char) :
    ∀ s : List Char, '\x7b' ∉ s → hasSubst ('\x7b' :: pt) s = false := by
  intro s
  induction s with
  | nil => intro _; rfl
  | cons c rest ih =>
    intro hnin
    have hc : ('\x7b' == c) = false := by
      have : c ≠ '\x7b' := fun h => hnin (h ▸ List.mem_cons_self c rest)
      simp [beq_eq_false_iff_ne]
      exact fun h => this h.symm
    rw [hasSubst]
    rw [show (('\x7b' :: pt).isPrefixOf (c :: rest)) = false from by
      simp [List.isPrefixOf, hc]]
    simp only [Bool.false_or]
    exact ih (fun h => hnin (List.mem_cons_of_mem c h))

/-- Replacement over a string without any occurrence of the pattern is the
identity. -/
theorem pyReplaceAux_no_sub (pat rep : List Char) :
    ∀ s, hasSubst pat s = false → pyReplaceAux pat rep s = s := by
  intro s
  induction s with
  | nil => intro _; rw [pyReplaceAux]
  | cons c rest ih =>
    intro hns
    rw [hasSubst] at hns
    obtain ⟨h1, h2⟩ := Bool.or_eq_false_iff.mp hns
    rw [pyReplaceAux]
    rw [if_neg (fun hc => absurd hc.2 (by simp [h1]))]
    rw [ih h2]

/-- One scan of `str.replace` over `a ++ pat ++ b`: when `a` holds no
opening brace and the pattern starts with one, the first occurrence is
replaced exactly there and scanning continues in `b` only. -/
theorem pyReplaceAux_boundary (pt rep : List Char) :
    ∀ (a b : List Char), '\x7b' ∉ a →
      pyReplaceAux ('\x7b' :: pt) rep (a ++ ('\x7b' :: pt) ++ b) =
        a ++ rep ++ pyReplaceAux ('\x7b' :: pt) rep b := by
  intro a
  induction a with
  | nil =>
    intro b _
    simp only [List.nil_append]
    rw [show ('\x7b' :: pt) ++ b = '\x7b' :: (pt ++ b) from rfl]
    rw [pyReplaceAux]
    rw [if_pos ⟨List.cons_ne_nil _ _, by
      rw [show ('\x7b' :: (pt ++ b)) = ('\x7b' :: pt) ++ b from rfl]
      exact List.isPrefixOf_iff_prefix.mpr (List.prefix_append _ _)⟩]
    rw [show ('\x7b' :: pt).length - 1 = pt.length from by simp]
    rw [List.drop_left]
  | cons c a' ih =>
    intro b hnin
    have hc : ('\x7b' == c) = false := by
      have : c ≠ '\x7b' := fun h => hnin (h ▸ List.mem_cons_self c a')
      simp [beq_eq_false_iff_ne]
      exact fun h => this h.symm
    simp only [List.cons_append]
    rw [pyReplaceAux]
    rw [if_neg (fun hcon => absurd hcon.2 (by
      simp [List.isPrefixOf, hc]))]
    rw [ih b (fun h => hnin (List.mem_cons_of_mem c h))]

/-- `str.replace` without any occurrence is the identity. -/
theorem pyReplaceS_no_sub (s pat rep : String) (hp : pat.data ≠ [])
    (h : hasSubst pat.data s.data = false) : pyReplaceS s pat rep = s := by
  unfold pyReplaceS pyReplace
  rw [if_neg hp]
  by_cases hs : s.data = []
  · rw [if_pos hs]
    exact (congrArg String.mk hs).symm
  · rw [if_neg hs]
    rw [pyReplaceAux_no_sub pat.data rep.data s.data h]

/-- The input-substitution fold leaves a template without any configured
input pattern untouched. -/
theorem foldl_inputs_id (l : List (String × Val)) (t : String)
    (h : ∀ kv ∈ l, hasSubst (placeholder kv.1).data t.data = false) :
    l.foldl (fun acc kv => pyReplaceS acc (placeholder kv.1) (pyStr kv.2)) t = t := by
  induction l with
  | nil => rfl
  | cons kv rest ih =>
    simp only [List.foldl_cons]
    rw [pyReplaceS_no_sub t (placeholder kv.1) (pyStr kv.2)
      (by rw [placeholder_data]; exact List.cons_ne_nil _ _)
      (h kv (List.mem_cons_self kv rest))]
    exact ih (fun kv' h' => h kv' (List.mem_cons_of_mem kv h'))

/-- The node-substitution fold leaves a template without any configured
node pattern untouched. -/
theorem foldl_nodes_id (l : List (String × Val)) (t : String)
    (h : ∀ kv ∈ l, hasSubst (nodes_placeholder kv.1).data t.data = false) :
    l.foldl render_node_step t = t := by
  induction l with
  | nil => rfl
  | cons kv rest ih =>
    simp only [List.foldl_cons]
    have hne : (nodes_placeholder kv.1).data ≠ [] := by
      rw [nodes_placeholder_data]
      exact List.cons_ne_nil _ _
    have hkv := h kv (List.mem_cons_self kv rest)
    have hrest := fun kv' h' => h kv' (List.mem_cons_of_mem kv h')
    have hstep : render_node_step t kv = t := by
      obtain ⟨nid, out⟩ := kv
      cases out with
      | vDict kvs =>
        rw [render_node_step]
        split
        · exact pyReplaceS_no_sub _ _ _ hne hkv
        · exact pyReplaceS_no_sub _ _ _ hne hkv
      | vNone => exact pyReplaceS_no_sub _ _ _ hne hkv
      | vBool b => exact pyReplaceS_no_sub _ _ _ hne hkv
      | vInt n => exact pyReplaceS_no_sub _ _ _ hne hkv
      | vFloat q => exact pyReplaceS_no_sub _ _ _ hne hkv
      | vStr s => exact pyReplaceS_no_sub _ _ _ hne hkv
      | vList xs => exact pyReplaceS_no_sub _ _ _ hne hkv
    rw [hstep]
    exact ih hrest

/-- One `str.replace` call substituting a brace-headed pattern between
brace-free text. -/
theorem pyReplaceS_boundary (pt : List Char) (rep : String) (a b : List Char)
    (ha : '\x7b' ∉ a) (hb : '\x7b' ∉ b) :
    pyReplaceS ⟨a ++ ('\x7b' :: pt) ++ b⟩ ⟨'\x7b' :: pt⟩ rep =
      ⟨a ++ rep.data ++ b⟩ := by
  unfold pyReplaceS pyReplace
  rw [if_neg (List.cons_ne_nil _ _)]
  rw [if_neg (by simp)]
  rw [show (String.mk (a ++ ('\x7b' :: pt) ++ b)).data = a ++ ('\x7b' :: pt) ++ b from rfl]
  rw [pyReplaceAux_boundary pt rep.data a b ha]
  rw [pyReplaceAux_no_sub _ _ b (hasSubst_false_of_brace_notin pt b hb)]

/-- Substitution of one input-key pattern between brace-free text. -/
theorem pyReplaceS_key_boundary (k : String) (rep : String) (a b : List Char)
    (ha : '\x7b' ∉ a) (hb : '\x7b' ∉ b) :
    pyReplaceS ⟨a ++ (placeholder k).data ++ b⟩ (placeholder k) rep =
      ⟨a ++ rep.data ++ b⟩ := by
  show pyReplaceS ⟨a ++ ('\x7b' :: ('\x7b' :: (k.data ++ ['\x7d', '\x7d']))) ++ b⟩
      ⟨'\x7b' :: ('\x7b' :: (k.data ++ ['\x7d', '\x7d']))⟩ rep = ⟨a ++ rep.data ++ b⟩
  exact pyReplaceS_boundary _ rep a b ha hb

/-- Substitution of one node-output pattern between brace-free text. -/
theorem pyReplaceS_nodes_boundary (nid : String) (rep : String) (a b : List Char)
    (ha : '\x7b' ∉ a) (hb : '\x7b' ∉ b) :
    pyReplaceS ⟨a ++ (nodes_placeholder nid).data ++ b⟩ (nodes_placeholder nid) rep =
      ⟨a ++ rep.data ++ b⟩ := by
  show pyReplaceS
      ⟨a ++ ('\x7b' :: ('\x7b' :: ('n' :: 'o' :: 'd' :: 'e' :: 's' :: '.' ::
        (nid.data ++ ['\x7d', '\x7d'])))) ++ b⟩
      ⟨'\x7b' :: ('\x7b' :: ('n' :: 'o' :: 'd' :: 'e' :: 's' :: '.' ::
        (nid.data ++ ['\x7d', '\x7d'])))⟩ rep = ⟨a ++ rep.data ++ b⟩
  exact pyReplaceS_boundary _ rep a b ha hb

/-- The value a node-output substitution inserts: a dict holding an
"output" key is unwrapped, any other value is taken raw. -/
def node_render_value : Val → Val
  | .vDict kvs =>
    match alookup kvs "output" with
    | some out => out
    | none => .vDict kvs
  | v => v

/-- `render_node_step` as a single `str.replace` call on the unwrapped
value. -/
theorem render_node_step_eq (acc : String) (nid : String) (out : Val) :
    render_node_step acc (nid, out) =
      pyReplaceS acc (nodes_placeholder nid) (pyStr (node_render_value out)) := by
  cases out with
  | vDict kvs =>
    cases halo : alookup kvs "output" with
    | some w => simp [render_node_step, node_render_value, halo]
    | none => simp [render_node_step, node_render_value, halo]
  | vNone => rfl
  | vBool b => rfl
  | vInt n => rfl
  | vFloat q => rfl
  | vStr s => rfl
  | vList xs => rfl

/-- Counterexample to C7 as stated: with inputs `a = "\x7b\x7bb\x7d\x7d"` and
`b = "X"`, the template `"\x7b\x7ba\x7d\x7d"` renders to `"X"`, not to the
stringified value of key `a`: the sequential `str.replace` passes
re-substitute the replacement text inserted for `a`, so the occurrence of
`\x7b\x7ba\x7d\x7d` is not replaced by the stringified input value and the
injected placeholder is not left verbatim. -/
theorem render_template_resubstitution_counterexample :
    render_template (placeholder "a")
        ⟨[("a", Val.vStr (placeholder "b")), ("b", Val.vStr "X")], [], []⟩ = "X" ∧
    pyStr (Val.vStr (placeholder "b")) = placeholder "b" ∧
    ("X" : String) ≠ placeholder "b" := by
  refine ⟨?_, rfl, by decide⟩
  show pyReplaceS (pyReplaceS (placeholder "a") (placeholder "a")
      (pyStr (Val.vStr (placeholder "b")))) (placeholder "b")
      (pyStr (Val.vStr "X")) = "X"
  have h1 : pyReplaceS (placeholder "a") (placeholder "a")
      (pyStr (Val.vStr (placeholder "b"))) = placeholder "b" := by
    have hb := pyReplaceS_key_boundary "a" (pyStr (Val.vStr (placeholder "b")))
      [] [] (by simp) (by simp)
    rw [show (⟨[] ++ (placeholder "a").data ++ []⟩ : String) = placeholder "a" from
      congrArg String.mk (by decide)] at hb
    rw [hb]
    exact congrArg String.mk (by decide)
  have h2 : pyReplaceS (placeholder "b") (placeholder "b")
      (pyStr (Val.vStr "X")) = "X" := by
    have hb := pyReplaceS_key_boundary "b" (pyStr (Val.vStr "X"))
      [] [] (by simp) (by simp)
    rw [show (⟨[] ++ (placeholder "b").data ++ []⟩ : String) = placeholder "b" from
      congrArg String.mk (by decide)] at hb
    rw [hb]
    exact congrArg String.mk (by decide)
  rw [h1]
  exact h2

/-- A segment of a template: literal text or a placeholder with the given
name (for an input key `k` the name is `k`; for a node id `nid` it is
`nodes.` followed by `nid`). -/
inductive Piece where
  | lit (s : List Char)
  | ref (n : List Char)

/-- The character sequence of a placeholder with the given name. -/
def refText (n : List Char) : List Char :=
  '\x7b' :: '\x7b' :: (n ++ ['\x7d', '\x7d'])

/-- Reassemble a segmented template into its character sequence. -/
def assemble : List Piece → List Char
  | [] => []
  | .lit s :: ps => s ++ assemble ps
  | .ref n :: ps => refText n ++ assemble ps

/-- Well-formed segment: literal text holds no opening brace, a placeholder
name holds no brace at all. -/
def pieceWF : Piece → Bool
  | .lit s => decide ('\x7b' ∉ s)
  | .ref n => decide ('\x7b' ∉ n) && decide ('\x7d' ∉ n)

/-- The effect of one `str.replace` pass on one segment: a placeholder whose
name matches the pattern becomes the replacement text, anything else is
kept. -/
def replacePiece (n1 rep : List Char) : Piece → Piece
  | .lit s => .lit s
  | .ref n => if n = n1 then .lit rep else .ref n

/-- The effect of a whole sequence of `str.replace` passes on one segment:
the first configured entry whose name matches wins, an unmatched
placeholder is kept. -/
def resolvePiece {α : Type} (nameOf rpl : α → List Char) (l : List α) : Piece → Piece
  | .lit s => .lit s
  | .ref n =>
    match l.find? (fun a => nameOf a == n) with
    | some a => .lit (rpl a)
    | none => .ref n

/-- What one placeholder resolves to: the stringified input value of the
first matching key, else the stringified unwrapped output of the first
matching node id, else the placeholder itself, verbatim. -/
def resolveRef (inputs node_outputs : List (String × Val)) (n : List Char) : List Char :=
  match inputs.find? (fun kv => kv.1.data == n) with
  | some kv => (pyStr kv.2).data
  | none =>
    match node_outputs.find? (fun kv => ("nodes." ++ kv.1 : String).data == n) with
    | some kv => (pyStr (node_render_value kv.2)).data
    | none => refText n

/-- The claimed per-occurrence substitution semantics over a segmented
template. -/
def substPieces (inputs node_outputs : List (String × Val)) : List Piece → List Char
  | [] => []
  | .lit s :: ps => s ++ substPieces inputs node_outputs ps
  | .ref n :: ps => resolveRef inputs node_outputs n ++ substPieces inputs node_outputs ps

theorem replacePiece_ref (n1 rep n : List Char) :
    replacePiece n1 rep (.ref n) = if n = n1 then .lit rep else .ref n := rfl

theorem resolvePiece_ref_found {α : Type} (nameOf rpl : α → List Char) (l : List α)
    (n : List Char) (a : α) (h : l.find? (fun b => nameOf b == n) = some a) :
    resolvePiece nameOf rpl l (.ref n) = .lit (rpl a) := by
  simp only [resolvePiece]
  rw [h]

theorem resolvePiece_ref_none {α : Type} (nameOf rpl : α → List Char) (l : List α)
    (n : List Char) (h : l.find? (fun b => nameOf b == n) = none) :
    resolvePiece nameOf rpl l (.ref n) = .ref n := by
  simp only [resolvePiece]
  rw [h]

/-- `str.replace` with a non-empty pattern is the scanning pass. -/
theorem pyReplace_eq_aux (s pat rep : List Char) (hp : pat ≠ []) :
    pyReplace s pat rep = pyReplaceAux pat rep s := by
  unfold pyReplace
  rw [if_neg hp]
  by_cases hs : s = []
  · rw [if_pos hs, hs]
    rw [pyReplaceAux]
  · rw [if_neg hs]

/-- The scan walks unchanged through text without an opening brace. -/
theorem refText_append_left (n1 rep : List Char) :
    ∀ (s u : List Char), '\x7b' ∉ s →
      pyReplaceAux (refText n1) rep (s ++ u) = s ++ pyReplaceAux (refText n1) rep u := by
  intro s
  induction s with
  | nil => intro u _; simp only [List.nil_append]
  | cons c s' ih =>
    intro u hnin
    have hc : ('\x7b' == c) = false := by
      have : c ≠ '\x7b' := fun h => hnin (h ▸ List.mem_cons_self c s')
      simp [beq_eq_false_iff_ne]
      exact fun h => this h.symm
    rw [List.cons_append, pyReplaceAux]
    rw [if_neg (fun hcon => absurd hcon.2 (by simp [refText, List.isPrefixOf, hc]))]
    rw [ih u (fun h => hnin (List.mem_cons_of_mem c h))]
    rw [List.cons_append]

/-- The scan replaces a placeholder that matches the pattern and continues
after it without rescanning the replacement text. -/
theorem refText_head_match (n1 rep u : List Char) :
    pyReplaceAux (refText n1) rep (refText n1 ++ u) =
      rep ++ pyReplaceAux (refText n1) rep u :=
  pyReplaceAux_boundary ('\x7b' :: (n1 ++ ['\x7d', '\x7d'])) rep [] u (by simp)

/-- A close-delimited name followed by the closing braces is a prefix of
another such sequence only when the names are equal. -/
theorem name_close_no_match :
    ∀ (n1 n2 u : List Char), '\x7d' ∉ n1 → '\x7d' ∉ n2 → n1 ≠ n2 →
      (n1 ++ ['\x7d', '\x7d']).isPrefixOf ((n2 ++ ['\x7d', '\x7d']) ++ u) = false := by
  intro n1
  induction n1 with
  | nil =>
    intro n2 u _ h2 hne
    cases n2 with
    | nil => exact absurd rfl hne
    | cons c n2' =>
      have hc : ('\x7d' == c) = false := by
        have : c ≠ '\x7d' := fun h => h2 (h ▸ List.mem_cons_self c n2')
        simp [beq_eq_false_iff_ne]
        exact fun h => this h.symm
      simp [List.isPrefixOf, hc]
  | cons c1 n1' ih =>
    intro n2 u h1 h2 hne
    cases n2 with
    | nil =>
      have hc : (c1 == '\x7d') = false := by
        have : c1 ≠ '\x7d' := fun h => h1 (h ▸ List.mem_cons_self c1 n1')
        simp [beq_eq_false_iff_ne]
        exact this
      simp [List.isPrefixOf, hc]
    | cons c2 n2' =>
      by_cases hcc : c1 = c2
      · subst hcc
        have hne' : n1' ≠ n2' := fun h => hne (by rw [h])
        have h1' : '\x7d' ∉ n1' := fun h => h1 (List.mem_cons_of_mem c1 h)
        have h2' : '\x7d' ∉ n2' := fun h => h2 (List.mem_cons_of_mem c1 h)
        simp only [List.cons_append, List.isPrefixOf, beq_self_eq_true, Bool.true_and]
        exact ih n2' u h1' h2' hne'
      · have hc : (c1 == c2) = false := by
          simp [beq_eq_false_iff_ne]
          exact hcc
        simp [List.isPrefixOf, hc]

/-- The scan walks unchanged through a placeholder whose name does not
match the pattern. -/
theorem refText_skip (n1 n rep u : List Char)
    (h1 : '\x7d' ∉ n1) (hnl : '\x7b' ∉ n) (hnr : '\x7d' ∉ n) (hne : n ≠ n1) :
    pyReplaceAux (refText n1) rep (refText n ++ u) =
      refText n ++ pyReplaceAux (refText n1) rep u := by
  rw [show refText n ++ u = '\x7b' :: '\x7b' :: ((n ++ ['\x7d', '\x7d']) ++ u) from rfl]
  have hpre0 : (refText n1).isPrefixOf
      ('\x7b' :: '\x7b' :: ((n ++ ['\x7d', '\x7d']) ++ u)) = false := by
    show (('\x7b' :: '\x7b' :: (n1 ++ ['\x7d', '\x7d'])).isPrefixOf
      ('\x7b' :: '\x7b' :: ((n ++ ['\x7d', '\x7d']) ++ u))) = false
    simp only [List.isPrefixOf, beq_self_eq_true, Bool.true_and]
    exact name_close_no_match n1 n u h1 hnr (fun h => hne h.symm)
  rw [pyReplaceAux]
  rw [if_neg (fun hcon => absurd hcon.2 (by rw [hpre0]; exact Bool.false_ne_true))]
  have hpre1 : (refText n1).isPrefixOf
      ('\x7b' :: ((n ++ ['\x7d', '\x7d']) ++ u)) = false := by
    show (('\x7b' :: '\x7b' :: (n1 ++ ['\x7d', '\x7d'])).isPrefixOf
      ('\x7b' :: ((n ++ ['\x7d', '\x7d']) ++ u))) = false
    cases n with
    | nil => simp [List.isPrefixOf]
    | cons c n' =>
      have hc : ('\x7b' == c) = false := by
        have : c ≠ '\x7b' := fun h => hnl (h ▸ List.mem_cons_self c n')
        simp [beq_eq_false_iff_ne]
        exact fun h => this h.symm
      simp [List.isPrefixOf, hc]
  rw [pyReplaceAux]
  rw [if_neg (fun hcon => absurd hcon.2 (by rw [hpre1]; exact Bool.false_ne_true))]
  rw [List.append_assoc]
  rw [refText_append_left n1 rep n (['\x7d', '\x7d'] ++ u) hnl]
  have hpre2 : ∀ v : List Char, (refText n1).isPrefixOf ('\x7d' :: v) = false := by
    intro v
    show (('\x7b' :: '\x7b' :: (n1 ++ ['\x7d', '\x7d'])).isPrefixOf ('\x7d' :: v)) = false
    simp [List.isPrefixOf]
  rw [show (['\x7d', '\x7d'] ++ u : List Char) = '\x7d' :: ('\x7d' :: u) from rfl]
  rw [pyReplaceAux]
  rw [if_neg (fun hcon => absurd hcon.2 (by rw [hpre2]; exact Bool.false_ne_true))]
  rw [pyReplaceAux]
  rw [if_neg (fun hcon => absurd hcon.2 (by rw [hpre2]; exact Bool.false_ne_true))]
  simp [refText, List.append_assoc]

/-- One replacement pass keeps segments well formed when the replacement
text is brace-free. -/
theorem pieceWF_map_replace (n1 rep : List Char) (hrep : '\x7b' ∉ rep) :
    ∀ ps : List Piece, (∀ p ∈ ps, pieceWF p = true) →
      ∀ p ∈ ps.map (replacePiece n1 rep), pieceWF p = true := by
  intro ps hwf p hp
  rw [List.mem_map] at hp
  obtain ⟨q, hq, rfl⟩ := hp
  cases q with
  | lit s => exact hwf _ hq
  | ref n =>
    by_cases hEq : n = n1
    · show pieceWF (if n = n1 then Piece.lit rep else Piece.ref n) = true
      rw [if_pos hEq]
      simp [pieceWF, hrep]
    · show pieceWF (if n = n1 then Piece.lit rep else Piece.ref n) = true
      rw [if_neg hEq]
      exact hwf _ hq

/-- A sequence of replacement passes with brace-free replacement text keeps
segments well formed. -/
theorem pieceWF_foldl_replace {α : Type} (nameOf rpl : α → List Char) :
    ∀ (l : List α) (ps : List Piece),
      (∀ a ∈ l, '\x7b' ∉ rpl a) →
      (∀ p ∈ ps, pieceWF p = true) →
      ∀ p ∈ l.foldl (fun qs a => qs.map (replacePiece (nameOf a) (rpl a))) ps,
        pieceWF p = true := by
  intro l
  induction l with
  | nil => intro ps _ hwf; simpa using hwf
  | cons a rest ih =>
    intro ps hrep hwf
    simp only [List.foldl_cons]
    exact ih _ (fun b hb => hrep b (List.mem_cons_of_mem a hb))
      (pieceWF_map_replace (nameOf a) (rpl a) (hrep a (List.mem_cons_self a rest)) ps hwf)

/-- One scanning pass over an assembled well-formed template replaces
exactly the placeholders whose name matches the pattern. -/
theorem assemble_replace_pass (n1 rep : List Char) (h1 : '\x7d' ∉ n1) :
    ∀ ps : List Piece, (∀ p ∈ ps, pieceWF p = true) →
      pyReplaceAux (refText n1) rep (assemble ps) =
        assemble (ps.map (replacePiece n1 rep)) := by
  intro ps
  induction ps with
  | nil =>
    intro _
    show pyReplaceAux (refText n1) rep [] = ([] : List Char)
    rw [pyReplaceAux]
  | cons p ps' ih =>
    intro hwf
    have hp := hwf p (List.mem_cons_self p ps')
    have hps' := fun q hq => hwf q (List.mem_cons_of_mem p hq)
    cases p with
    | lit s =>
      have hs : '\x7b' ∉ s := by simpa [pieceWF] using hp
      show pyReplaceAux (refText n1) rep (s ++ assemble ps') =
        s ++ assemble (ps'.map (replacePiece n1 rep))
      rw [refText_append_left n1 rep s (assemble ps') hs]
      rw [ih hps']
    | ref n =>
      have hn : '\x7b' ∉ n ∧ '\x7d' ∉ n := by simpa [pieceWF] using hp
      by_cases hEq : n = n1
      · subst hEq
        show pyReplaceAux (refText n) rep (refText n ++ assemble ps') =
          assemble ((if n = n then Piece.lit rep else Piece.ref n) ::
            ps'.map (replacePiece n rep))
        rw [refText_head_match, ih hps', if_pos rfl]
        rfl
      · show pyReplaceAux (refText n1) rep (refText n ++ assemble ps') =
          assemble ((if n = n1 then Piece.lit rep else Piece.ref n) ::
            ps'.map (replacePiece n1 rep))
        rw [refText_skip n1 n rep (assemble ps') h1 hn.1 hn.2 hEq]
        rw [ih hps', if_neg hEq]
        rfl

/-- One `str.replace` call over an assembled well-formed template, at the
`String` level. -/
theorem render_pass (n1 rep : List Char) (h1 : '\x7d' ∉ n1) (ps : List Piece)
    (hwf : ∀ p ∈ ps, pieceWF p = true) :
    pyReplaceS ⟨assemble ps⟩ ⟨refText n1⟩ ⟨rep⟩ =
      ⟨assemble (ps.map (replacePiece n1 rep))⟩ := by
  show (⟨pyReplace (assemble ps) (refText n1) rep⟩ : String) = _
  apply congrArg String.mk
  rw [pyReplace_eq_aux (assemble ps) (refText n1) rep
    (by simp [refText])]
  exact assemble_replace_pass n1 rep h1 ps hwf

/-- The input-substitution fold over an assembled well-formed template,
tracked segment-wise: one replacement pass per input key, in configuration
order. -/
theorem render_inputs_fold :
    ∀ (l : List (String × Val)) (ps : List Piece),
      (∀ p ∈ ps, pieceWF p = true) →
      (∀ kv ∈ l, '\x7d' ∉ kv.1.data) →
      (∀ kv ∈ l, '\x7b' ∉ (pyStr kv.2).data) →
      l.foldl (fun acc kv => pyReplaceS acc (placeholder kv.1) (pyStr kv.2)) ⟨assemble ps⟩ =
        ⟨assemble (l.foldl (fun qs kv =>
          qs.map (replacePiece kv.1.data (pyStr kv.2).data)) ps)⟩ := by
  intro l
  induction l with
  | nil => intro ps _ _ _; rfl
  | cons kv rest ih =>
    intro ps hwf hks hvs
    simp only [List.foldl_cons]
    have hstep : pyReplaceS ⟨assemble ps⟩ (placeholder kv.1) (pyStr kv.2) =
        ⟨assemble (ps.map (replacePiece kv.1.data (pyStr kv.2).data))⟩ :=
      render_pass kv.1.data (pyStr kv.2).data
        (hks kv (List.mem_cons_self kv rest)) ps hwf
    rw [hstep]
    exact ih _
      (pieceWF_map_replace kv.1.data (pyStr kv.2).data
        (hvs kv (List.mem_cons_self kv rest)) ps hwf)
      (fun kv' h' => hks kv' (List.mem_cons_of_mem kv h'))
      (fun kv' h' => hvs kv' (List.mem_cons_of_mem kv h'))

/-- The node-substitution fold over an assembled well-formed template,
tracked segment-wise: one replacement pass per node id, with the dict
output unwrapped. -/
theorem render_nodes_fold :
    ∀ (l : List (String × Val)) (ps : List Piece),
      (∀ p ∈ ps, pieceWF p = true) →
      (∀ kv ∈ l, '\x7d' ∉ kv.1.data) →
      (∀ kv ∈ l, '\x7b' ∉ (pyStr (node_render_value kv.2)).data) →
      l.foldl render_node_step ⟨assemble ps⟩ =
        ⟨assemble (l.foldl (fun qs kv =>
          qs.map (replacePiece ("nodes." ++ kv.1 : String).data
            (pyStr (node_render_value kv.2)).data)) ps)⟩ := by
  intro l
  induction l with
  | nil => intro ps _ _ _; rfl
  | cons kv rest ih =>
    intro ps hwf hks hvs
    simp only [List.foldl_cons]
    have hname : '\x7d' ∉ ("nodes." ++ kv.1 : String).data := by
      intro hmem
      rw [show ("nodes." ++ kv.1 : String).data = "nodes.".data ++ kv.1.data from rfl]
        at hmem
      rcases List.mem_append.mp hmem with h | h
      · exact absurd h (by decide)
      · exact hks kv (List.mem_cons_self kv rest) h
    have hstep : render_node_step ⟨assemble ps⟩ kv =
        ⟨assemble (ps.map (replacePiece ("nodes." ++ kv.1 : String).data
          (pyStr (node_render_value kv.2)).data))⟩ := by
      obtain ⟨nid, out⟩ := kv
      rw [render_node_step_eq]
      exact render_pass ("nodes." ++ nid : String).data
        (pyStr (node_render_value out)).data hname ps hwf
    rw [hstep]
    exact ih _
      (pieceWF_map_replace ("nodes." ++ kv.1 : String).data
        (pyStr (node_render_value kv.2)).data
        (hvs kv (List.mem_cons_self kv rest)) ps hwf)
      (fun kv' h' => hks kv' (List.mem_cons_of_mem kv h'))
      (fun kv' h' => hvs kv' (List.mem_cons_of_mem kv h'))

/-- Pointwise-equal segment maps agree. -/
theorem map_congr_pieces {f g : Piece → Piece} :
    ∀ ps : List Piece, (∀ p, f p = g p) → ps.map f = ps.map g := by
  intro ps h
  induction ps with
  | nil => rfl
  | cons p ps ih => rw [List.map_cons, List.map_cons, h p, ih]

/-- Resolving against an empty configuration keeps every segment. -/
theorem resolvePiece_nil_map {α : Type} (nameOf rpl : α → List Char) :
    ∀ ps : List Piece, ps.map (resolvePiece nameOf rpl []) = ps := by
  intro ps
  induction ps with
  | nil => rfl
  | cons p ps ih =>
    rw [List.map_cons, ih]
    rw [show resolvePiece nameOf rpl [] p = p from by cases p <;> rfl]

/-- Resolving against the tail after one replacement pass is resolving
against the whole configuration: the first matching entry wins. -/
theorem resolve_replace_step {α : Type} (nameOf rpl : α → List Char)
    (a : α) (rest : List α) (p : Piece) :
    resolvePiece nameOf rpl rest (replacePiece (nameOf a) (rpl a) p) =
      resolvePiece nameOf rpl (a :: rest) p := by
  cases p with
  | lit s => rfl
  | ref n =>
    by_cases hEq : n = nameOf a
    · rw [replacePiece_ref, if_pos hEq]
      have hfa : (a :: rest).find? (fun b => nameOf b == n) = some a :=
        List.find?_cons_of_pos _ (by rw [hEq]; exact beq_self_eq_true _)
      rw [resolvePiece_ref_found nameOf rpl (a :: rest) n a hfa]
      rfl
    · rw [replacePiece_ref, if_neg hEq]
      have hfa : ((fun b => nameOf b == n) a) = false := by
        simp [beq_eq_false_iff_ne]
        exact fun h => hEq h.symm
      show resolvePiece nameOf rpl rest (Piece.ref n) =
        resolvePiece nameOf rpl (a :: rest) (Piece.ref n)
      simp only [resolvePiece]
      rw [List.find?_cons_of_neg _ (by simp [hfa])]

/-- A sequence of replacement passes acts segment-wise as first-match
resolution. -/
theorem foldl_replace_eq_map_resolve {α : Type} (nameOf rpl : α → List Char) :
    ∀ (l : List α) (ps : List Piece),
      l.foldl (fun qs a => qs.map (replacePiece (nameOf a) (rpl a))) ps =
        ps.map (resolvePiece nameOf rpl l) := by
  intro l
  induction l with
  | nil =>
    intro ps
    rw [List.foldl_nil]
    exact (resolvePiece_nil_map nameOf rpl ps).symm
  | cons a rest ih =>
    intro ps
    simp only [List.foldl_cons]
    rw [ih (ps.map (replacePiece (nameOf a) (rpl a)))]
    rw [List.map_map]
    exact map_congr_pieces ps (fun p => resolve_replace_step nameOf rpl a rest p)

/-- Input resolution followed by node resolution, reassembled, is the
claimed per-occurrence substitution. -/
theorem assemble_resolve (inputs node_outputs : List (String × Val)) :
    ∀ ps : List Piece,
      assemble ((ps.map (resolvePiece (fun kv : String × Val => kv.1.data)
          (fun kv => (pyStr kv.2).data) inputs)).map
        (resolvePiece (fun kv : String × Val => ("nodes." ++ kv.1 : String).data)
          (fun kv => (pyStr (node_render_value kv.2)).data) node_outputs)) =
      substPieces inputs node_outputs ps := by
  intro ps
  induction ps with
  | nil => rfl
  | cons p ps' ih =>
    cases p with
    | lit s =>
      show s ++ _ = s ++ _
      exact congrArg (fun t => s ++ t) ih
    | ref n =>
      show assemble
          ((resolvePiece (fun kv : String × Val => ("nodes." ++ kv.1 : String).data)
            (fun kv => (pyStr (node_render_value kv.2)).data) node_outputs)
              (resolvePiece (fun kv : String × Val => kv.1.data)
                (fun kv => (pyStr kv.2).data) inputs (Piece.ref n)) :: _) =
        resolveRef inputs node_outputs n ++ substPieces inputs node_outputs ps'
      cases hfi : inputs.find? (fun kv => kv.1.data == n) with
      | some kv =>
        rw [resolvePiece_ref_found _ _ inputs n kv hfi]
        rw [show resolveRef inputs node_outputs n = (pyStr kv.2).data from by
          simp only [resolveRef]
          rw [hfi]]
        show (pyStr kv.2).data ++ _ = (pyStr kv.2).data ++ _
        exact congrArg (fun t => (pyStr kv.2).data ++ t) ih
      | none =>
        rw [resolvePiece_ref_none _ _ inputs n hfi]
        cases hfn : node_outputs.find?
            (fun kv => ("nodes." ++ kv.1 : String).data == n) with
        | some kv =>
          rw [resolvePiece_ref_found _ _ node_outputs n kv hfn]
          rw [show resolveRef inputs node_outputs n =
              (pyStr (node_render_value kv.2)).data from by
            simp only [resolveRef]
            rw [hfi, hfn]]
          show (pyStr (node_render_value kv.2)).data ++ _ =
            (pyStr (node_render_value kv.2)).data ++ _
          exact congrArg (fun t => (pyStr (node_render_value kv.2)).data ++ t) ih
        | none =>
          rw [resolvePiece_ref_none _ _ node_outputs n hfn]
          rw [show resolveRef inputs node_outputs n = refText n from by
            simp only [resolveRef]
            rw [hfi, hfn]]
          show refText n ++ _ = refText n ++ _
          exact congrArg (fun t => refText n ++ t) ih

/-- C7: (corrected) the LLM template resolver is one `str.replace` pass per
input key in configuration order followed by one per node id, so replacement
text inserted by an earlier pass is rescanned by the later passes; the
claimed simultaneous per-occurrence substitution therefore holds only when
no substituted value itself contains a brace. Conjunct 1: a template
containing no configured pattern - unmatched placeholders included - is
returned verbatim. Conjunct 2: a template assembled from brace-free literal
text and placeholders with brace-free names has every occurrence of every
input key's placeholder replaced by that key's stringified input value and
every occurrence of a node id's placeholder replaced by that node's
stringified unwrapped output (input keys taking precedence, first matching
entry winning), while placeholders matching no input key and no node id are
kept verbatim - provided every substituted value is brace-free. The
resolver is a total function, so it never raises. -/
theorem render_template_sequential_contract (state : ExecState) :
    (∀ template : String,
      (∀ kv ∈ state.inputs, hasSubst (placeholder kv.1).data template.data = false) →
      (∀ kv ∈ state.node_outputs,
        hasSubst (nodes_placeholder kv.1).data template.data = false) →
      render_template template state = template) ∧
    (∀ ps : List Piece,
      (∀ p ∈ ps, pieceWF p = true) →
      (∀ kv ∈ state.inputs, '\x7d' ∉ kv.1.data) →
      (∀ kv ∈ state.node_outputs, '\x7d' ∉ kv.1.data) →
      (∀ kv ∈ state.inputs, '\x7b' ∉ (pyStr kv.2).data) →
      (∀ kv ∈ state.node_outputs, '\x7b' ∉ (pyStr (node_render_value kv.2)).data) →
      render_template ⟨assemble ps⟩ state =
        ⟨substPieces state.inputs state.node_outputs ps⟩) := by
  constructor
  · intro template h1 h2
    show state.node_outputs.foldl render_node_step
        (state.inputs.foldl
          (fun acc kv => pyReplaceS acc (placeholder kv.1) (pyStr kv.2)) template) =
      template
    rw [foldl_inputs_id state.inputs template h1]
    exact foldl_nodes_id state.node_outputs template h2
  · intro ps hwf hik hnk hiv hnv
    show state.node_outputs.foldl render_node_step
        (state.inputs.foldl
          (fun acc kv => pyReplaceS acc (placeholder kv.1) (pyStr kv.2)) ⟨assemble ps⟩) =
      ⟨substPieces state.inputs state.node_outputs ps⟩
    rw [render_inputs_fold state.inputs ps hwf hik hiv]
    rw [render_nodes_fold state.node_outputs _
      (pieceWF_foldl_replace (fun kv : String × Val => kv.1.data)
        (fun kv => (pyStr kv.2).data) state.inputs ps hiv hwf) hnk hnv]
    rw [foldl_replace_eq_map_resolve (fun kv : String × Val => kv.1.data)
      (fun kv => (pyStr kv.2).data) state.inputs ps]
    rw [foldl_replace_eq_map_resolve
      (fun kv : String × Val => ("nodes." ++ kv.1 : String).data)
      (fun kv => (pyStr (node_render_value kv.2)).data) state.node_outputs _]
    exact congrArg String.mk (assemble_resolve state.inputs state.node_outputs ps)

/-- Witness for C7: an unmatched placeholder is kept verbatim against a
disjoint input, and the spec's own mixed template - a node placeholder, a
literal, and an input placeholder - resolves segment-wise to the node's
unwrapped output and the input value, yielding the expected string. -/
theorem render_template_sequential_contract_witness :
    render_template (placeholder "other")
        ⟨[("query", Val.vStr "hi")], [], []⟩ = placeholder "other" ∧
    render_template
        ⟨assemble [Piece.ref ("nodes.rag-1" : String).data, Piece.lit (": ".data),
          Piece.ref ("query" : String).data]⟩
        ⟨[("query", Val.vStr "What is RAG?")],
         [("rag-1", Val.vDict [("output", Val.vStr "CTX")])], []⟩ =
      ⟨substPieces [("query", Val.vStr "What is RAG?")]
        [("rag-1", Val.vDict [("output", Val.vStr "CTX")])]
        [Piece.ref ("nodes.rag-1" : String).data, Piece.lit (": ".data),
          Piece.ref ("query" : String).data]⟩ ∧
    (⟨substPieces [("query", Val.vStr "What is RAG?")]
        [("rag-1", Val.vDict [("output", Val.vStr "CTX")])]
        [Piece.ref ("nodes.rag-1" : String).data, Piece.lit (": ".data),
          Piece.ref ("query" : String).data]⟩ : String) = "CTX: What is RAG?" :=
  ⟨(render_template_sequential_contract
      ⟨[("query", Val.vStr "hi")], [], []⟩).1 (placeholder "other")
      (by decide) (by decide),
   (render_template_sequential_contract
      ⟨[("query", Val.vStr "What is RAG?")],
       [("rag-1", Val.vDict [("output", Val.vStr "CTX")])], []⟩).2
      [Piece.ref ("nodes.rag-1" : String).data, Piece.lit (": ".data),
        Piece.ref ("query" : String).data]
      (by decide) (by decide) (by decide) (by decide) (by decide),
   by decide⟩
